import Mathlib

/-!
Shallow embedding of the protein-folding scoring engine (FastAPI server under
`app/server/`): the pure energy-term evaluators from `scoring.py`, the voxel
neighbour index and state containers from `state.py`, the incremental scoring
orchestrator from `score.py`, and `build_state` from `submissions.py`.

Modelling conventions:
* Python floats are modelled as exact rationals (`ℚ`) for coordinates, angles
  and weights; quantities produced through `sqrt`, `log`, `exp` and real
  exponentiation live in `ℝ` (a `ℚ`-valued input is cast into `ℝ` at the point
  where the Python code calls the irrational function).
* Python `dict`s are insertion-ordered association lists (`List (key × value)`)
  with first-occurrence lookup, update-in-place and append-on-new-key.
* Python `set`s are duplicate-free lists: `add` appends if missing. Where the
  source iterates a set, the embedding iterates the list; every quantity the
  theorems below mention (score totals, membership) is insensitive to that
  iteration order.
* Python exceptions are `Except String` / `Option` results.
-/

set_option maxHeartbeats 3200000
set_option maxRecDepth 100000

namespace BostonHacks

/-- Coordinates: a Python 3-tuple of floats. -/
abbrev Vec3 := ℚ × ℚ × ℚ

/-! ### Association-list model of Python `dict` -/

/-- `d.get(a)`: first-occurrence lookup. -/
def alGet {α β : Type} [DecidableEq α] : List (α × β) → α → Option β
  | [], _ => none
  | (k, v) :: rest, a => if k = a then some v else alGet rest a

/-- `d.get(a, dflt)`. -/
def alGetD {α β : Type} [DecidableEq α] (l : List (α × β)) (a : α) (d : β) : β :=
  (alGet l a).getD d

/-- `d[a] = b`: update in place when the key exists, append otherwise. -/
def alSet {α β : Type} [DecidableEq α] : List (α × β) → α → β → List (α × β)
  | [], a, b => [(a, b)]
  | (k, v) :: rest, a, b =>
      if k = a then (k, b) :: rest else (k, v) :: alSet rest a b

/-- `d.pop(a, None)`: drop the entry for `a`. (This removes every occurrence
of the key; the key lists arising from the code are duplicate-free, where this
is exactly `dict.pop`.) -/
def alPop {α β : Type} [DecidableEq α] : List (α × β) → α → List (α × β)
  | [], _ => []
  | (k, v) :: rest, a => if k = a then alPop rest a else (k, v) :: alPop rest a

/-- The key list of a `dict` (insertion order). -/
def alKeys {α β : Type} (l : List (α × β)) : List α := l.map Prod.fst

/-! ### List model of Python `set` -/

/-- `s.add a`: append when not already a member. -/
def sAdd {α : Type} [DecidableEq α] (l : List α) (a : α) : List α :=
  if a ∈ l then l else l ++ [a]

/-- `s |= t`: fold `sAdd` over the right operand. -/
def sUnion {α : Type} [DecidableEq α] (l m : List α) : List α :=
  m.foldl sAdd l

theorem mem_sAdd {α : Type} [DecidableEq α] {l : List α} {a b : α} :
    b ∈ sAdd l a ↔ b ∈ l ∨ b = a := by
  unfold sAdd
  by_cases h : a ∈ l
  · simp only [if_pos h]
    constructor
    · exact Or.inl
    · rintro (hb | rfl)
      · exact hb
      · exact h
  · simp [if_neg h]

theorem mem_of_mem_sAdd_left {α : Type} [DecidableEq α] {l : List α} {a b : α}
    (h : b ∈ l) : b ∈ sAdd l a :=
  mem_sAdd.mpr (Or.inl h)

theorem mem_sUnion_left {α : Type} [DecidableEq α] {l m : List α} {b : α}
    (h : b ∈ l) : b ∈ sUnion l m := by
  induction m generalizing l with
  | nil => exact h
  | cons x xs ih => exact ih (mem_of_mem_sAdd_left h)

theorem mem_sUnion_right {α : Type} [DecidableEq α] {l m : List α} {b : α}
    (h : b ∈ m) : b ∈ sUnion l m := by
  induction m generalizing l with
  | nil => cases h
  | cons x xs ih =>
      rcases List.mem_cons.mp h with h1 | hxs
      · have hb : b ∈ sAdd l x := mem_sAdd.mpr (Or.inr h1)
        show b ∈ sUnion (sAdd l x) xs
        exact mem_sUnion_left hb
      · exact ih hxs

/-! ### `scoring.py`: compactness penalty (radius of gyration) -/

/-- `ALPHA_RG = 0.3`. -/
def ALPHA_RG : ℚ := 3 / 10

/-- Sum of a list of rationals (Python `sum`). -/
def qsum (l : List ℚ) : ℚ := l.foldl (fun a b => a + b) 0

/-- The centroid of a nonempty point list (`sum_x / count`, ...). -/
def centroid (positions : List Vec3) : Vec3 :=
  let n : ℚ := positions.length
  (qsum (positions.map (fun p => p.1)) / n,
   qsum (positions.map (fun p => p.2.1)) / n,
   qsum (positions.map (fun p => p.2.2)) / n)

/-- `moment`: the summed squared distance of each point from the centroid. -/
def gyrationMoment (positions : List Vec3) : ℚ :=
  let c := centroid positions
  qsum (positions.map (fun p =>
    (p.1 - c.1) * (p.1 - c.1) + (p.2.1 - c.2.1) * (p.2.1 - c.2.1) +
      (p.2.2 - c.2.2) * (p.2.2 - c.2.2)))

/-- `compactness_penalty(coords, alpha)` from `scoring.py`: zero for an empty
list; `rg = 0` for a single point, otherwise the root-mean-square distance from
the centroid; the result is `alpha * (rg - 2.2 * count ** (1/3))²`. -/
noncomputable def compactness_penalty (coords : List Vec3) (alpha : ℚ) : ℝ :=
  let count := coords.length
  if count = 0 then 0
  else
    let rg : ℝ :=
      if count = 1 then 0
      else Real.sqrt ((gyrationMoment coords : ℝ) / (count : ℝ))
    let target : ℝ := (2.2 : ℝ) * (count : ℝ) ^ ((1 : ℝ) / 3)
    let delta : ℝ := rg - target
    (alpha : ℝ) * (delta * delta)

/-- The radius of gyration exactly as the specification words it: the
root-mean-square distance from the centroid (this is the reference definition
for the comparison; the code special-cases `count = 1`). -/
noncomputable def specRadiusOfGyration (coords : List Vec3) : ℝ :=
  Real.sqrt ((gyrationMoment coords : ℝ) / (coords.length : ℝ))

theorem gyrationMoment_singleton (p : Vec3) : gyrationMoment [p] = 0 := by
  simp only [gyrationMoment, centroid, qsum, List.map, List.foldl, List.length]
  push_cast
  ring_nf

/-- C6 counterexample: `compactness_penalty` on exactly one point does NOT
return 0 — the code sets `rg = 0` but still subtracts the target
`2.2 * 1^(1/3) = 2.2`, giving `0.3 * 2.2² = 1.452`. -/
theorem c6_counterexample_single_point :
    compactness_penalty [((0 : ℚ), 0, 0)] ALPHA_RG ≠ 0 := by
  unfold compactness_penalty
  norm_num [ALPHA_RG, Real.one_rpow]

/-- C6 (amended): `compactness_penalty` returns exactly 0 on an empty list of
points; for every nonempty list of N points (including N = 1) it returns
`alpha` times the square of (radius of gyration − 2.2·N^(1/3)), where the
radius of gyration is the root-mean-square distance from the centroid (0 for a
single point). -/
theorem c6_compactness_base_and_formula :
    (∀ alpha : ℚ, compactness_penalty [] alpha = 0) ∧
    (∀ (coords : List Vec3) (alpha : ℚ), coords ≠ [] →
      compactness_penalty coords alpha =
        (alpha : ℝ) *
          ((specRadiusOfGyration coords -
              (2.2 : ℝ) * (coords.length : ℝ) ^ ((1 : ℝ) / 3)) *
            (specRadiusOfGyration coords -
              (2.2 : ℝ) * (coords.length : ℝ) ^ ((1 : ℝ) / 3)))) := by
  constructor
  · intro alpha
    unfold compactness_penalty
    norm_num
  · intro coords alpha hne
    match coords with
    | [p] =>
        unfold compactness_penalty specRadiusOfGyration
        rw [gyrationMoment_singleton]
        norm_num
    | p :: q :: rest =>
        unfold compactness_penalty specRadiusOfGyration
        simp only [List.length_cons]
        norm_num

/-- Witness for C6: the amended formula instantiated at two concrete points. -/
theorem c6_witness :
    compactness_penalty [((0 : ℚ), 0, 0), ((2 : ℚ), 0, 0)] 1 =
      ((1 : ℚ) : ℝ) *
        ((specRadiusOfGyration [((0 : ℚ), 0, 0), ((2 : ℚ), 0, 0)] -
            (2.2 : ℝ) *
              (([((0 : ℚ), 0, 0), ((2 : ℚ), 0, 0)] : List Vec3).length : ℝ) ^
                ((1 : ℝ) / 3)) *
          (specRadiusOfGyration [((0 : ℚ), 0, 0), ((2 : ℚ), 0, 0)] -
            (2.2 : ℝ) *
              (([((0 : ℚ), 0, 0), ((2 : ℚ), 0, 0)] : List Vec3).length : ℝ) ^
                ((1 : ℝ) / 3))) :=
  c6_compactness_base_and_formula.2 [((0 : ℚ), 0, 0), ((2 : ℚ), 0, 0)] 1
    (List.cons_ne_nil _ _)

/-! ### `scoring.py`: Ramachandran penalty -/

/-- `RAMA_BIN_SIZE = 10.0`. -/
def RAMA_BIN_SIZE : ℚ := 10

/-- `RAMA_BIN_COUNT = 36`. -/
def RAMA_BIN_COUNT : ℕ := 36

/-- `RAMA_MAX_PENALTY = 10.0`. -/
def RAMA_MAX_PENALTY : ℚ := 10

/-- `RAMA_MIN_PROBABILITY = 1.0e-6`. -/
def RAMA_MIN_PROBABILITY : ℚ := 1 / 1000000

/-- One Gaussian component of a synthetic Ramachandran histogram:
`(phi0, psi0, sigma_phi, sigma_psi, weight)`. -/
structure RamaComponent where
  phi0 : ℚ
  psi0 : ℚ
  sigmaPhi : ℚ
  sigmaPsi : ℚ
  weight : ℚ
  deriving DecidableEq

/-- `_RAMA_COMPONENTS`: keys are exactly `"general"`, `"gly"`, `"pro"`. -/
def ramaComponents (key : String) : Option (List RamaComponent) :=
  if key = "general" then
    some [⟨-60, -40, 22, 18, 55 / 100⟩, ⟨-120, 130, 25, 22, 35 / 100⟩,
      ⟨60, 40, 18, 20, 20 / 100⟩]
  else if key = "gly" then
    some [⟨-80, 0, 25, 22, 45 / 100⟩, ⟨80, 0, 25, 20, 45 / 100⟩,
      ⟨-150, 150, 28, 24, 30 / 100⟩]
  else if key = "pro" then
    some [⟨-65, 140, 18, 18, 60 / 100⟩, ⟨-80, -35, 16, 20, 25 / 100⟩]
  else none

/-- `RAMA_BIN_CENTERS[i] = -180 + (i + 0.5) * RAMA_BIN_SIZE`. -/
def ramaBinCenter (i : ℕ) : ℚ := -180 + ((i : ℚ) + 1 / 2) * RAMA_BIN_SIZE

/-- One entry of a table from `_build_ramachandran_table`: the floor
probability plus the Gaussian components, capped at 1. -/
noncomputable def ramaTableValue (comps : List RamaComponent) (i j : ℕ) : ℝ :=
  min
    (comps.foldl
      (fun acc c =>
        acc +
          (c.weight : ℝ) *
            Real.exp
              (-(1 / 2 : ℝ) *
                ((((ramaBinCenter i - c.phi0) / c.sigmaPhi : ℚ) : ℝ) *
                    (((ramaBinCenter i - c.phi0) / c.sigmaPhi : ℚ) : ℝ) +
                  (((ramaBinCenter j - c.psi0) / c.sigmaPsi : ℚ) : ℝ) *
                    (((ramaBinCenter j - c.psi0) / c.sigmaPsi : ℚ) : ℝ))))
      (RAMA_MIN_PROBABILITY : ℝ))
    1

/-- Python float `%` with a positive modulus: `a - b * ⌊a / b⌋`. -/
def qmod (a b : ℚ) : ℚ := a - b * (⌊a / b⌋ : ℚ)

/-- `_wrap_angle`: wrap into `[-180, 180)`. -/
def wrap_angle (angle : ℚ) : ℚ := qmod (angle + 180) 360 - 180

/-- `_interpolation_indices`: lower/upper bin indices and the interpolation
weight for an angle (`%` on Python ints is `Int.emod`, non-negative here). -/
def interpolation_indices (angle : ℚ) : ℕ × ℕ × ℚ :=
  let coord : ℚ := (angle + 180) / RAMA_BIN_SIZE - 1 / 2
  let lower : ℤ := ⌊coord⌋
  let fraction : ℚ := coord - (lower : ℚ)
  let lowerIndex : ℕ := (lower % (RAMA_BIN_COUNT : ℤ)).toNat
  let upperIndex : ℕ := (lowerIndex + 1) % RAMA_BIN_COUNT
  (lowerIndex, upperIndex, fraction)

/-- Python `str.lower()` for ASCII strings, as a structurally-evaluating map
over the character list. -/
def strLower (s : String) : String := ⟨s.data.map Char.toLower⟩

/-- Python `str.upper()` for ASCII strings. -/
def strUpper (s : String) : String := ⟨s.data.map Char.toUpper⟩

/-- The message of the `ValueError` raised for an unknown residue type (the
Python text wraps the offending type in single quotes; the sorted valid keys
are `general, gly, pro`). -/
def ramaUnknownMessage (residueType : String) : String :=
  "Unknown residue type " ++ residueType ++
    " for Ramachandran lookup; expected one of general, gly, pro"

/-- `ramachandran_penalty(phi, psi, residue_type)` from `scoring.py`:
histogram lookup with bilinear interpolation, probability clamped to
`[RAMA_MIN_PROBABILITY, 1]`, penalty `-ln(prob)` clamped to `[0, 10]`;
unknown residue classes are a `ValueError`. -/
noncomputable def ramaPenaltyValue (comps : List RamaComponent) (phi psi : ℚ) :
    ℝ :=
  let wrappedPhi := wrap_angle phi
  let wrappedPsi := wrap_angle psi
  let pi3 := interpolation_indices wrappedPhi
  let si3 := interpolation_indices wrappedPsi
  let phiW : ℝ := (pi3.2.2 : ℚ)
  let psiW : ℝ := (si3.2.2 : ℚ)
  let v00 := ramaTableValue comps pi3.1 si3.1
  let v10 := ramaTableValue comps pi3.2.1 si3.1
  let v01 := ramaTableValue comps pi3.1 si3.2.1
  let v11 := ramaTableValue comps pi3.2.1 si3.2.1
  let prob :=
    (1 - phiW) * (1 - psiW) * v00 + phiW * (1 - psiW) * v10 +
      (1 - phiW) * psiW * v01 + phiW * psiW * v11
  let prob2 := max (min prob 1) (RAMA_MIN_PROBABILITY : ℝ)
  let penalty := -Real.log prob2
  let penalty2 := if penalty < 0 then 0 else penalty
  min penalty2 (RAMA_MAX_PENALTY : ℝ)

noncomputable def ramachandran_penalty (phi psi : ℚ) (residueType : String) :
    Except String ℝ :=
  match ramaComponents (strLower residueType) with
  | none => .error (ramaUnknownMessage residueType)
  | some comps => .ok (ramaPenaltyValue comps phi psi)

theorem ramaPenaltyValue_nonneg (comps : List RamaComponent) (phi psi : ℚ) :
    0 ≤ ramaPenaltyValue comps phi psi := by
  unfold ramaPenaltyValue
  refine le_min ?_ (by norm_num [RAMA_MAX_PENALTY])
  split
  · exact le_refl 0
  · next h => exact le_of_not_lt h

theorem ramaPenaltyValue_le_ten (comps : List RamaComponent) (phi psi : ℚ) :
    ramaPenaltyValue comps phi psi ≤ 10 := by
  unfold ramaPenaltyValue
  exact min_le_of_right_le (by norm_num [RAMA_MAX_PENALTY])

theorem ramachandran_penalty_of_some {cls : String}
    {comps : List RamaComponent}
    (hc : ramaComponents (strLower cls) = some comps) (phi psi : ℚ) :
    ramachandran_penalty phi psi cls = .ok (ramaPenaltyValue comps phi psi) := by
  unfold ramachandran_penalty
  rw [hc]

/-- C7 counterexample: the class name `"glycine"` (which the claim says must
be accepted) is rejected with a hard error — the table keys are
`general`/`gly`/`pro`. -/
theorem c7_counterexample_glycine_rejected :
    ramachandran_penalty 0 0 "glycine" =
      .error (ramaUnknownMessage "glycine") := by
  rfl

/-- C7 (amended): `ramachandran_penalty` accepts exactly the residue classes
whose lower-cased form is `"general"`, `"gly"` or `"pro"` — for those it
returns a histogram-based penalty in `[0, 10]` without raising — and for every
other residue class it raises a hard error whose message lists the valid
classes (`general, gly, pro`). -/
theorem c7_rama_domain :
    (∀ (phi psi : ℚ) (cls : String),
      strLower cls ∈ ["general", "gly", "pro"] →
      ∃ r : ℝ, ramachandran_penalty phi psi cls = .ok r ∧ 0 ≤ r ∧ r ≤ 10) ∧
    (∀ (phi psi : ℚ) (cls : String),
      strLower cls ∉ ["general", "gly", "pro"] →
      ramachandran_penalty phi psi cls = .error (ramaUnknownMessage cls)) := by
  constructor
  · intro phi psi cls hmem
    simp only [List.mem_cons, List.not_mem_nil, or_false] at hmem
    have hcomps : ∃ comps, ramaComponents (strLower cls) = some comps := by
      unfold ramaComponents
      rcases hmem with h | h | h
      · rw [if_pos h]
        exact ⟨_, rfl⟩
      · rw [if_neg (by rw [h]; decide), if_pos h]
        exact ⟨_, rfl⟩
      · rw [if_neg (by rw [h]; decide), if_neg (by rw [h]; decide), if_pos h]
        exact ⟨_, rfl⟩
    rcases hcomps with ⟨comps, hc⟩
    exact ⟨_, ramachandran_penalty_of_some hc phi psi,
      ramaPenaltyValue_nonneg comps phi psi, ramaPenaltyValue_le_ten comps phi psi⟩
  · intro phi psi cls hmem
    simp only [List.mem_cons, List.not_mem_nil, or_false, not_or] at hmem
    have hnone : ramaComponents (strLower cls) = none := by
      unfold ramaComponents
      rw [if_neg hmem.1, if_neg hmem.2.1, if_neg hmem.2.2]
    unfold ramachandran_penalty
    rw [hnone]

/-- Witness for C7: both branches at concrete inputs — `"GLY"` lower-cases to
an accepted class and yields a penalty in `[0, 10]`; `"glycine"` is rejected
with the message naming the valid classes. -/
theorem c7_witness :
    (∃ r : ℝ, ramachandran_penalty 80 0 "GLY" = .ok r ∧ 0 ≤ r ∧ r ≤ 10) ∧
    ramachandran_penalty 0 0 "proline" =
      .error (ramaUnknownMessage "proline") :=
  ⟨c7_rama_domain.1 80 0 "GLY" (by decide),
    c7_rama_domain.2 0 0 "proline" (by decide)⟩

/-! ### `scoring.py`: rotamer penalty

The Python function accepts both `Mapping` and sequence inputs for `coords`
and `residue_types`; the embedding models the `Mapping` branch (an
insertion-ordered dict keyed by residue index). The `χ` character of the
Python error text is written `chi` here. -/

/-- `ALPHA_ROT = 0.02`. -/
def ALPHA_ROT : ℚ := 1 / 50

/-- `RESIDUE_CHI_COUNT`: expected χ-angle count per residue type. -/
def RESIDUE_CHI_COUNT : List (String × ℕ) :=
  [("ALA", 0), ("GLY", 0), ("SER", 1), ("CYS", 1), ("VAL", 1), ("THR", 1),
   ("ASN", 2), ("ASP", 2), ("LEU", 2), ("ILE", 2), ("HIS", 2), ("PHE", 2),
   ("TYR", 2), ("TRP", 2), ("GLN", 3), ("GLU", 3), ("MET", 3), ("LYS", 4),
   ("ARG", 4), ("PRO", 0)]

/-- Python `str.strip()` (whitespace at both ends). -/
def strStrip (s : String) : String :=
  ⟨((s.data.dropWhile Char.isWhitespace).reverse.dropWhile
      Char.isWhitespace).reverse⟩

/-- `_normalise_residue_key`: strip, upper-case, keep 1-letter codes whole and
truncate everything else to three characters. -/
def normaliseResidueKey (residue : String) : String :=
  let r := strUpper (strStrip residue)
  if r.data.length = 1 then r else ⟨r.data.take 3⟩

/-- The χ-combination list built by `_build` inside `_generate_rotamer_bins`:
depth-first over the canonical centres `(-60, 60, 180)`, leftmost angle
slowest. -/
def chiCombos : ℕ → List (List ℚ)
  | 0 => [[]]
  | n + 1 =>
      ([-60, 60, 180] : List ℚ).flatMap fun c =>
        (chiCombos n).map fun rest => c :: rest

/-- `_generate_rotamer_bins(chi_count)`: each bin is (centres, widths) with a
uniform ±35° half width. For `chi_count = 0` Python returns the 1-tuple
`((),)`, never destructured by any caller (the 0-χ early return fires first);
it is modelled as a single empty bin. -/
def generateRotamerBins (chiCount : ℕ) : List (List ℚ × List ℚ) :=
  if chiCount = 0 then [([], [])]
  else (chiCombos chiCount).map fun cs => (cs, cs.map fun _ => (35 : ℚ))

/-- `ROTAMER_LIBRARY.get(key)`: bins for each residue type in
`RESIDUE_CHI_COUNT`, plus the extra `"DEFAULT"` entry generated for one χ. -/
def rotamerLibrary (key : String) : Option (List (List ℚ × List ℚ)) :=
  match alGet RESIDUE_CHI_COUNT key with
  | some n => some (generateRotamerBins n)
  | none => if key = "DEFAULT" then some (generateRotamerBins 1) else none

/-- `_get_residue_type` (Mapping branch): a missing index is a `ValueError`;
otherwise the normalised key. -/
def getResidueType (resIdx : ℕ) (types : List (ℕ × String)) :
    Except String String :=
  match alGet types resIdx with
  | none =>
      .error ("Unknown residue index " ++ toString resIdx ++
        " for rotamer lookup")
  | some r => .ok (normaliseResidueKey r)

/-- `_get_residue_chis` (Mapping branch): a missing index is a `ValueError`. -/
def getResidueChis (resIdx : ℕ) (coords : List (ℕ × List ℚ)) :
    Except String (List ℚ) :=
  match alGet coords resIdx with
  | none => .error ("Missing chi angles for residue " ++ toString resIdx)
  | some chis => .ok chis

/-- `_angle_distance`: absolute wrapped angular difference. -/
def angleDistance (a b : ℚ) : ℚ := |wrap_angle (a - b)|

/-- The squared excess beyond tolerance accumulated for one bin. -/
def binExcessSq (relevant centres widths : List ℚ) : ℚ :=
  (List.zip relevant (List.zip centres widths)).foldl
    (fun acc t =>
      let delta := angleDistance t.1 t.2.1
      if delta ≤ t.2.2 then acc
      else acc + (delta - t.2.2) * (delta - t.2.2))
    0

/-- The message of the `ValueError` raised for a too-short χ list (the Python
text writes `χ`). -/
def rotamerShortMessage (resIdx : ℕ) (residueType : String)
    (chiCount received : ℕ) : String :=
  "Residue " ++ toString resIdx ++ " (" ++ residueType ++ ") expected " ++
    toString chiCount ++ " chi angles, received " ++ toString received

/-- `rotamer_penalty(res_idx, coords, residue_types)` from `scoring.py`
(Mapping branch for both maps). `best_excess` starts at infinity, modelled as
`none`; Python breaks out of the bin loop at 0, which cannot change the
minimum. -/
def rotamer_penalty (resIdx : ℕ) (coords : List (ℕ × List ℚ))
    (types : List (ℕ × String)) : Except String ℚ :=
  match getResidueType resIdx types with
  | .error e => .error e
  | .ok residueType =>
      match getResidueChis resIdx coords with
      | .error e => .error e
      | .ok chiAngles =>
          let chiCount0 := alGetD RESIDUE_CHI_COUNT residueType chiAngles.length
          if chiCount0 = 0 ∨ chiAngles = [] then .ok 0
          else if chiAngles.length < chiCount0 then
            .error (rotamerShortMessage resIdx residueType chiCount0
              chiAngles.length)
          else
            let pair : List (List ℚ × List ℚ) × ℕ :=
              match rotamerLibrary residueType with
              | some bins => (bins, chiCount0)
              | none =>
                  (generateRotamerBins 1,
                    min (min chiCount0 chiAngles.length) 1)
            let relevant := chiAngles.take pair.2
            let bestExcess : Option ℚ :=
              pair.1.foldl
                (fun best b =>
                  if b.1.length ≠ relevant.length then best
                  else
                    let e := binExcessSq relevant b.1 b.2
                    match best with
                    | none => some e
                    | some cur => if e < cur then some e else some cur)
                none
            match bestExcess with
            | none => .ok 0
            | some e => .ok (ALPHA_ROT * e)

/-- C8 counterexample: `SER` expects one χ angle, yet an EMPTY χ list returns
0 instead of raising — `rotamer_penalty` short-circuits on `not chi_angles`
before the length check. -/
theorem c8_counterexample_empty_chi_list :
    rotamer_penalty 0 [(0, [])] [(0, "SER")] = .ok 0 := by rfl

/-- C8 (amended): with the χ data passed as a map, an ABSENT χ entry raises a
hard error for every residue present in the type map; a NONEMPTY χ list
shorter than the expected count raises a hard error; but an EMPTY χ list
returns 0 rather than raising, and residues whose type expects 0 χ angles
return exactly 0 whenever their χ entry is present. -/
theorem c8_rotamer_missing_chi :
    (∀ (resIdx : ℕ) (coords : List (ℕ × List ℚ)) (types : List (ℕ × String))
      (rt : String), alGet types resIdx = some rt →
      alGet coords resIdx = none →
      rotamer_penalty resIdx coords types =
        .error ("Missing chi angles for residue " ++ toString resIdx)) ∧
    (∀ (resIdx : ℕ) (coords : List (ℕ × List ℚ)) (types : List (ℕ × String))
      (rt : String) (chis : List ℚ) (k : ℕ),
      alGet types resIdx = some rt → alGet coords resIdx = some chis →
      alGet RESIDUE_CHI_COUNT (normaliseResidueKey rt) = some k →
      chis ≠ [] → chis.length < k →
      rotamer_penalty resIdx coords types =
        .error (rotamerShortMessage resIdx (normaliseResidueKey rt) k
          chis.length)) ∧
    (∀ (resIdx : ℕ) (coords : List (ℕ × List ℚ)) (types : List (ℕ × String))
      (rt : String) (chis : List ℚ),
      alGet types resIdx = some rt → alGet coords resIdx = some chis →
      alGet RESIDUE_CHI_COUNT (normaliseResidueKey rt) = some 0 →
      rotamer_penalty resIdx coords types = .ok 0) := by
  refine ⟨?_, ?_, ?_⟩
  · intro resIdx coords types rt htype hchi
    unfold rotamer_penalty getResidueType getResidueChis
    rw [htype, hchi]
  · intro resIdx coords types rt chis k htype hchi hcount hne hlt
    unfold rotamer_penalty getResidueType getResidueChis
    rw [htype, hchi]
    have hd : alGetD RESIDUE_CHI_COUNT (normaliseResidueKey rt) chis.length
        = k := by
      unfold alGetD
      rw [hcount]
      rfl
    simp only [hd]
    rw [if_neg, if_pos hlt]
    rintro (hk | hnil)
    · omega
    · exact hne hnil
  · intro resIdx coords types rt chis htype hchi hcount
    unfold rotamer_penalty getResidueType getResidueChis
    rw [htype, hchi]
    have hd : alGetD RESIDUE_CHI_COUNT (normaliseResidueKey rt) chis.length
        = 0 := by
      unfold alGetD
      rw [hcount]
      rfl
    simp only [hd]
    simp

/-- Witness for C8: all three amended branches at concrete inputs — a missing
χ entry for `SER` raises, one χ angle for `LYS` (which expects four) raises,
and `ALA` (zero expected χ angles) returns 0. -/
theorem c8_witness :
    rotamer_penalty 0 [] [(0, "SER")] =
        .error ("Missing chi angles for residue " ++ toString 0) ∧
    rotamer_penalty 0 [(0, [30])] [(0, "LYS")] =
        .error (rotamerShortMessage 0 (normaliseResidueKey "LYS") 4
          ([(30 : ℚ)] : List ℚ).length) ∧
    rotamer_penalty 0 [(0, [50])] [(0, "ALA")] = .ok 0 :=
  ⟨c8_rotamer_missing_chi.1 0 [] [(0, "SER")] "SER" rfl rfl,
    c8_rotamer_missing_chi.2.1 0 [(0, [30])] [(0, "LYS")] "LYS" [30] 4 rfl rfl
      (by decide) (by decide) (by decide),
    c8_rotamer_missing_chi.2.2 0 [(0, [50])] [(0, "ALA")] "ALA" [50] rfl rfl
      (by decide)⟩

/-! ### `scoring.py`: clash energy -/

/-- An atom record for `clash_energy` (the Python code accepts mappings or
attribute objects providing `element`, `x`, `y`, `z`; both collapse to this). -/
structure ClashAtom where
  element : String
  x : ℚ
  y : ℚ
  z : ℚ
  deriving DecidableEq

/-- `VAN_DER_WAALS_RADII`: C=1.70, N=1.55, O=1.52, S=1.80, H=1.10. -/
def VAN_DER_WAALS_RADII : List (String × ℚ) :=
  [("C", 17 / 10), ("N", 31 / 20), ("O", 38 / 25), ("S", 9 / 5),
   ("H", 11 / 10)]

/-- The coordinate triple of a clash atom. -/
def atomPos (a : ClashAtom) : Vec3 := (a.x, a.y, a.z)

/-- Squared Euclidean distance (`dx*dx + dy*dy + dz*dz`). -/
def sqDist (a b : Vec3) : ℚ :=
  (a.1 - b.1) * (a.1 - b.1) + (a.2.1 - b.2.1) * (a.2.1 - b.2.1) +
    (a.2.2 - b.2.2) * (a.2.2 - b.2.2)

theorem sqDist_nonneg (a b : Vec3) : 0 ≤ sqDist a b := by
  unfold sqDist
  have h1 := mul_self_nonneg (a.1 - b.1)
  have h2 := mul_self_nonneg (a.2.1 - b.2.1)
  have h3 := mul_self_nonneg (a.2.2 - b.2.2)
  linarith

/-- The validation loop of `clash_energy`: positions and radii in input order,
with a `ValueError` at the first unknown (upper-cased) element symbol. The
Python text wraps the element in single quotes. -/
def clashPrep : List ClashAtom → Except String (List (Vec3 × ℚ))
  | [] => .ok []
  | a :: rest =>
      match alGet VAN_DER_WAALS_RADII (strUpper a.element) with
      | none =>
          .error ("Unsupported element " ++ strUpper a.element ++
            " for clash calculation")
      | some r =>
          match clashPrep rest with
          | .error e => .error e
          | .ok l => .ok ((atomPos a, r) :: l)

/-- The pair accumulation of `clash_energy`: for each pair `(i, j)` with
`i < j`, skip when `dist_sq >= cutoff_sq`, else add `overlap²` when the
overlap `(r_i + r_j + softness) - dist` is positive. -/
noncomputable def clashPairs (softness cutoff : ℚ) :
    List (Vec3 × ℚ) → ℝ
  | [] => 0
  | (p, r) :: rest =>
      rest.foldl
        (fun acc pr =>
          let s := sqDist p pr.1
          if cutoff * cutoff ≤ s then acc
          else
            let overlap := ((r + pr.2 + softness : ℚ) : ℝ) -
              Real.sqrt ((s : ℚ) : ℝ)
            if 0 < overlap then acc + overlap * overlap else acc)
        0
      + clashPairs softness cutoff rest

/-- `clash_energy(atoms, softness, cutoff)` from `scoring.py`. -/
noncomputable def clash_energy (atoms : List ClashAtom)
    (softness cutoff : ℚ) : Except String ℝ :=
  match clashPrep atoms with
  | .error e => .error e
  | .ok prs => .ok (clashPairs softness cutoff prs)

/-- The van der Waals radius of an atom per the lookup table (0 as an inert
default; every theorem below restricts to atoms whose element is in the
table). -/
def specRadius (a : ClashAtom) : ℚ :=
  alGetD VAN_DER_WAALS_RADII (strUpper a.element) 0

/-- Reference definition, following the specification text: one unordered
pair's contribution — `max(0, (r_i + r_j + softness) − d_ij)²` when `d_ij` is
within the cutoff, else 0. -/
noncomputable def specPairTerm (softness cutoff : ℚ) (a b : ClashAtom) : ℝ :=
  if Real.sqrt ((sqDist (atomPos a) (atomPos b) : ℚ) : ℝ) < (cutoff : ℝ) then
    max 0 (((specRadius a + specRadius b + softness : ℚ) : ℝ) -
      Real.sqrt ((sqDist (atomPos a) (atomPos b) : ℚ) : ℝ)) ^ 2
  else 0

/-- Reference definition: the sum of `specPairTerm` over all unordered atom
pairs. -/
noncomputable def specClashSum (softness cutoff : ℚ) :
    List ClashAtom → ℝ
  | [] => 0
  | a :: rest =>
      (rest.map (specPairTerm softness cutoff a)).sum +
        specClashSum softness cutoff rest

theorem specPairTerm_nonneg (softness cutoff : ℚ) (a b : ClashAtom) :
    0 ≤ specPairTerm softness cutoff a b := by
  unfold specPairTerm
  split
  · positivity
  · exact le_refl 0

theorem specClashSum_nonneg (softness cutoff : ℚ) (atoms : List ClashAtom) :
    0 ≤ specClashSum softness cutoff atoms := by
  induction atoms with
  | nil => exact le_refl 0
  | cons a rest ih =>
      unfold specClashSum
      refine add_nonneg (List.sum_nonneg ?_) ih
      intro x hx
      rcases List.mem_map.mp hx with ⟨b, _, rfl⟩
      exact specPairTerm_nonneg softness cutoff a b

theorem foldl_add_extract (f : (Vec3 × ℚ) → ℝ) (l : List (Vec3 × ℚ))
    (acc : ℝ) :
    l.foldl (fun a x => a + f x) acc = acc + (l.map f).sum := by
  induction l generalizing acc with
  | nil => simp
  | cons x xs ih => simp [ih, add_assoc]

/-- The per-pair body of the code loop, extracted as a function of the second
member of the pair. -/
noncomputable def codePairTerm (softness cutoff : ℚ) (p : Vec3) (r : ℚ)
    (pr : Vec3 × ℚ) : ℝ :=
  let s := sqDist p pr.1
  if cutoff * cutoff ≤ s then 0
  else
    let overlap := ((r + pr.2 + softness : ℚ) : ℝ) - Real.sqrt ((s : ℚ) : ℝ)
    if 0 < overlap then overlap * overlap else 0

theorem clash_inner_foldl (softness cutoff : ℚ) (p : Vec3) (r : ℚ)
    (rest : List (Vec3 × ℚ)) :
    rest.foldl
        (fun acc pr =>
          let s := sqDist p pr.1
          if cutoff * cutoff ≤ s then acc
          else
            let overlap := ((r + pr.2 + softness : ℚ) : ℝ) -
              Real.sqrt ((s : ℚ) : ℝ)
            if 0 < overlap then acc + overlap * overlap else acc)
        0 =
      (rest.map (codePairTerm softness cutoff p r)).sum := by
  have hstep :
      (fun (acc : ℝ) (pr : Vec3 × ℚ) =>
        let s := sqDist p pr.1
        if cutoff * cutoff ≤ s then acc
        else
          let overlap := ((r + pr.2 + softness : ℚ) : ℝ) -
            Real.sqrt ((s : ℚ) : ℝ)
          if 0 < overlap then acc + overlap * overlap else acc) =
      fun acc pr => acc + codePairTerm softness cutoff p r pr := by
    funext acc pr
    unfold codePairTerm
    by_cases h1 : cutoff * cutoff ≤ sqDist p pr.1
    · simp [h1]
    · simp only [if_neg h1]
      split
      · rfl
      · simp
  rw [hstep, foldl_add_extract, zero_add]

/-- Pointwise: the loop body equals the reference pair term (`cutoff ≥ 0`
makes `dist_sq < cutoff²` and `dist < cutoff` agree). -/
theorem codePairTerm_eq_spec (softness cutoff : ℚ) (hc : 0 ≤ cutoff)
    (a b : ClashAtom) :
    codePairTerm softness cutoff (atomPos a) (specRadius a)
        (atomPos b, specRadius b) =
      specPairTerm softness cutoff a b := by
  unfold codePairTerm specPairTerm
  have hs : (0 : ℝ) ≤ ((sqDist (atomPos a) (atomPos b) : ℚ) : ℝ) := by
    exact_mod_cast sqDist_nonneg (atomPos a) (atomPos b)
  have hcR : (0 : ℝ) ≤ (cutoff : ℝ) := by exact_mod_cast hc
  by_cases h1 : cutoff * cutoff ≤ sqDist (atomPos a) (atomPos b)
  · rw [if_pos h1]
    have hge : (cutoff : ℝ) ≤ Real.sqrt ((sqDist (atomPos a) (atomPos b) : ℚ) : ℝ) := by
      rw [Real.le_sqrt hcR hs]
      have h2 : ((cutoff * cutoff : ℚ) : ℝ) ≤ ((sqDist (atomPos a) (atomPos b) : ℚ) : ℝ) := by
        exact_mod_cast h1
      calc (cutoff : ℝ) ^ 2 = ((cutoff * cutoff : ℚ) : ℝ) := by push_cast; ring
        _ ≤ _ := h2
    rw [if_neg (not_lt.mpr hge)]
  · rw [if_neg h1]
    push_neg at h1
    have hlt : Real.sqrt ((sqDist (atomPos a) (atomPos b) : ℚ) : ℝ) < (cutoff : ℝ) := by
      have hcpos : (0 : ℝ) < (cutoff : ℝ) := by
        by_contra hnp
        push_neg at hnp
        have : (cutoff : ℝ) = 0 := le_antisymm hnp (by exact_mod_cast hc)
        have hq : cutoff = 0 := by exact_mod_cast this
        rw [hq] at h1
        simp at h1
        exact absurd h1 (not_lt.mpr (sqDist_nonneg _ _))
      rw [Real.sqrt_lt' hcpos]
      calc ((sqDist (atomPos a) (atomPos b) : ℚ) : ℝ)
          < ((cutoff * cutoff : ℚ) : ℝ) := by exact_mod_cast h1
        _ = (cutoff : ℝ) ^ 2 := by push_cast; ring
    rw [if_pos hlt]
    set ov : ℝ := ((specRadius a + specRadius b + softness : ℚ) : ℝ) -
      Real.sqrt ((sqDist (atomPos a) (atomPos b) : ℚ) : ℝ) with hov
    by_cases h2 : 0 < ov
    · rw [if_pos h2, max_eq_right h2.le, sq]
    · rw [if_neg h2, max_eq_left (not_lt.mp h2)]
      norm_num

theorem clashPrep_ok (atoms : List ClashAtom)
    (hk : ∀ a ∈ atoms, (alGet VAN_DER_WAALS_RADII (strUpper a.element)).isSome) :
    clashPrep atoms = .ok (atoms.map (fun a => (atomPos a, specRadius a))) := by
  induction atoms with
  | nil => rfl
  | cons a rest ih =>
      have ha := hk a (List.mem_cons_self a rest)
      unfold clashPrep
      match hval : alGet VAN_DER_WAALS_RADII (strUpper a.element) with
      | none => rw [hval] at ha; exact absurd ha (by simp)
      | some r =>
          rw [ih (fun b hb => hk b (List.mem_cons_of_mem a hb))]
          have hr : specRadius a = r := by unfold specRadius alGetD; rw [hval]; rfl
          simp [hr]

theorem clashPairs_map_eq_spec (softness cutoff : ℚ) (hc : 0 ≤ cutoff)
    (atoms : List ClashAtom) :
    clashPairs softness cutoff
        (atoms.map (fun a => (atomPos a, specRadius a))) =
      specClashSum softness cutoff atoms := by
  induction atoms with
  | nil => rfl
  | cons a rest ih =>
      simp only [List.map_cons]
      unfold clashPairs specClashSum
      rw [clash_inner_foldl, ih, List.map_map]
      have hmap : ∀ b ∈ rest,
          (codePairTerm softness cutoff (atomPos a) (specRadius a) ∘
            fun x => (atomPos x, specRadius x)) b =
            specPairTerm softness cutoff a b := by
        intro b _
        exact codePairTerm_eq_spec softness cutoff hc a b
      rw [List.map_congr_left hmap]

/-- C5: for every atom list whose (upper-cased) element symbols are all in the
van der Waals table, `clash_energy` equals the reference sum over unordered
pairs strictly within the cutoff of `max(0, (r_i + r_j + softness) − d_ij)²`,
which is non-negative; and an atom list with an element outside the table is a
hard error. -/
theorem c5_clash_reference :
    (∀ (atoms : List ClashAtom) (softness cutoff : ℚ),
      (∀ a ∈ atoms,
        (alGet VAN_DER_WAALS_RADII (strUpper a.element)).isSome) →
      0 ≤ cutoff →
      clash_energy atoms softness cutoff =
          .ok (specClashSum softness cutoff atoms) ∧
        0 ≤ specClashSum softness cutoff atoms) ∧
    clash_energy [⟨"X", 0, 0, 0⟩] (1 / 5) 8 =
      .error ("Unsupported element X for clash calculation") := by
  constructor
  · intro atoms softness cutoff hk hc
    constructor
    · unfold clash_energy
      rw [clashPrep_ok atoms hk]
      exact congrArg Except.ok (clashPairs_map_eq_spec softness cutoff hc atoms)
    · exact specClashSum_nonneg softness cutoff atoms
  · rfl

/-- Witness for C5: two carbon atoms 1 apart under default parameters. -/
theorem c5_witness :
    clash_energy [⟨"C", 0, 0, 0⟩, ⟨"C", 1, 0, 0⟩] (1 / 5) 8 =
        .ok (specClashSum (1 / 5) 8
          [⟨"C", 0, 0, 0⟩, ⟨"C", 1, 0, 0⟩]) ∧
      0 ≤ specClashSum (1 / 5) 8 [⟨"C", 0, 0, 0⟩, ⟨"C", 1, 0, 0⟩] :=
  (c5_clash_reference.1 [⟨"C", 0, 0, 0⟩, ⟨"C", 1, 0, 0⟩] (1 / 5) 8
    (by decide) (by norm_num))

/-! ### `state.py`: atoms, residues and the voxel neighbour grid

`alPop` models `dict.pop(key, None)` as a key filter; on the duplicate-free
key lists produced by every operation in this file the two are identical. -/

theorem alGet_alSet_self {α β : Type} [DecidableEq α] (l : List (α × β))
    (a : α) (b : β) : alGet (alSet l a b) a = some b := by
  induction l with
  | nil => simp [alSet, alGet]
  | cons kv rest ih =>
      obtain ⟨k, v⟩ := kv
      by_cases h : k = a
      · rw [alSet, if_pos h, alGet, if_pos h]
      · rw [alSet, if_neg h, alGet, if_neg h]
        exact ih

theorem alGet_alSet_ne {α β : Type} [DecidableEq α] (l : List (α × β))
    (a x : α) (b : β) (h : x ≠ a) : alGet (alSet l a b) x = alGet l x := by
  induction l with
  | nil =>
      simp only [alSet, alGet]
      rw [if_neg (fun he : a = x => h he.symm)]
  | cons kv rest ih =>
      obtain ⟨k, v⟩ := kv
      by_cases hk : k = a
      · rw [alSet, if_pos hk, alGet, alGet,
          if_neg (fun he : k = x => h (hk ▸ he ▸ rfl)),
          if_neg (fun he : k = x => h (hk ▸ he ▸ rfl))]
      · rw [alSet, if_neg hk, alGet, alGet]
        by_cases hx : k = x
        · rw [if_pos hx, if_pos hx]
        · rw [if_neg hx, if_neg hx]
          exact ih

theorem alGet_alPop_self {α β : Type} [DecidableEq α] (l : List (α × β))
    (a : α) : alGet (alPop l a) a = none := by
  induction l with
  | nil => rfl
  | cons kv rest ih =>
      obtain ⟨k, v⟩ := kv
      by_cases h : k = a
      · rw [alPop, if_pos h]
        exact ih
      · rw [alPop, if_neg h, alGet, if_neg h]
        exact ih

theorem alGet_alPop_ne {α β : Type} [DecidableEq α] (l : List (α × β))
    (a x : α) (h : x ≠ a) : alGet (alPop l a) x = alGet l x := by
  induction l with
  | nil => rfl
  | cons kv rest ih =>
      obtain ⟨k, v⟩ := kv
      by_cases hk : k = a
      · rw [alPop, if_pos hk, alGet,
          if_neg (fun he : k = x => h (hk ▸ he ▸ rfl))]
        exact ih
      · rw [alPop, if_neg hk, alGet, alGet]
        by_cases hx : k = x
        · rw [if_pos hx, if_pos hx]
        · rw [if_neg hx, if_neg hx]
          exact ih

theorem alGetD_alSet_self {α β : Type} [DecidableEq α] (l : List (α × β))
    (a : α) (b d : β) : alGetD (alSet l a b) a d = b := by
  unfold alGetD
  rw [alGet_alSet_self]
  rfl

theorem alGetD_alSet_ne {α β : Type} [DecidableEq α] (l : List (α × β))
    (a x : α) (b d : β) (h : x ≠ a) :
    alGetD (alSet l a b) x d = alGetD l x d := by
  unfold alGetD
  rw [alGet_alSet_ne _ _ _ _ h]

theorem alGetD_alPop_self {α β : Type} [DecidableEq α] (l : List (α × β))
    (a : α) (d : β) : alGetD (alPop l a) a d = d := by
  unfold alGetD
  rw [alGet_alPop_self]
  rfl

theorem alGetD_alPop_ne {α β : Type} [DecidableEq α] (l : List (α × β))
    (a x : α) (d : β) (h : x ≠ a) : alGetD (alPop l a) x d = alGetD l x d := by
  unfold alGetD
  rw [alGet_alPop_ne _ _ _ h]

/-- `setdefault(a, d)`: insert the default when the key is absent. -/
def alSetDefault {α β : Type} [DecidableEq α] (l : List (α × β)) (a : α)
    (d : β) : List (α × β) :=
  match alGet l a with
  | some _ => l
  | none => l ++ [(a, d)]

theorem sAdd_ne_nil {α : Type} [DecidableEq α] (l : List α) (a : α) :
    sAdd l a ≠ [] := by
  unfold sAdd
  split
  · next h =>
      intro he
      rw [he] at h
      cases h
  · simp

/-- `Atom` from `state.py`: an `(residue id, atom name)` identifier and a
coordinate triple. -/
structure Atom where
  id : ℕ × String
  xyz : Vec3
  deriving DecidableEq

/-- `Residue` from `state.py`. -/
structure Residue where
  id : ℕ
  name : String
  atoms : List Atom
  deriving DecidableEq

/-- `NeighborGrid` from `state.py`: voxel size plus the two mutually-indexed
dicts. -/
structure NeighborGrid where
  voxel : ℚ
  vox2res : List ((ℤ × ℤ × ℤ) × List ℕ)
  res2vox : List (ℕ × List (ℤ × ℤ × ℤ))
  deriving DecidableEq

/-- `NeighborGrid._to_key`: floored voxel coordinates. -/
def toKey (v : ℚ) (p : Vec3) : ℤ × ℤ × ℤ :=
  (⌊p.1 / v⌋, ⌊p.2.1 / v⌋, ⌊p.2.2 / v⌋)

/-- One iteration of the atom loop in `index_residue`: record the atom's cell
for the residue and the residue for the cell. -/
def indexAtom (rid : ℕ) (g : NeighborGrid) (atom : Atom) : NeighborGrid :=
  let key := toKey g.voxel atom.xyz
  { g with
    res2vox := alSet g.res2vox rid (sAdd (alGetD g.res2vox rid []) key),
    vox2res := alSet g.vox2res key (sAdd (alGetD g.vox2res key []) rid) }

/-- `NeighborGrid.index_residue`. -/
def indexResidue (g : NeighborGrid) (res : Residue) : NeighborGrid :=
  let g0 : NeighborGrid :=
    { g with res2vox := alSetDefault g.res2vox res.id [] }
  res.atoms.foldl (indexAtom res.id) g0

/-- One iteration of the cell loop in `clear_residue`: discard the residue
from the bucket and drop the bucket when it empties. Python skips when
`self.vox2res.get(key)` is falsy — `None` and the empty set alike — which the
model merges into the single test `alGetD v2r key [] = []`. -/
def clearCell (rid : ℕ) (v2r : List ((ℤ × ℤ × ℤ) × List ℕ))
    (key : ℤ × ℤ × ℤ) : List ((ℤ × ℤ × ℤ) × List ℕ) :=
  if alGetD v2r key [] = [] then v2r
  else
    let b2 := (alGetD v2r key []).filter (fun x => x ≠ rid)
    if b2 = [] then alPop v2r key else alSet v2r key b2

/-- `NeighborGrid.clear_residue`. -/
def clearResidue (g : NeighborGrid) (rid : ℕ) : NeighborGrid :=
  let cells := alGetD g.res2vox rid []
  { g with
    vox2res := cells.foldl (clearCell rid) g.vox2res,
    res2vox := alPop g.res2vox rid }

/-- `range(-rng, rng + 1)`. -/
def offsetRange (rng : ℤ) : List ℤ :=
  (List.range (2 * rng + 1).toNat).map (fun i : ℕ => -rng + (i : ℤ))

/-- The triple-nested cell offsets visited by `nearby_residues`. -/
def cellOffsets (rng : ℤ) : List (ℤ × ℤ × ℤ) :=
  (offsetRange rng).flatMap fun dx =>
    (offsetRange rng).flatMap fun dy =>
      (offsetRange rng).map fun dz => (dx, dy, dz)

/-- The innermost accumulation of `nearby_residues`: look the offset cell up
and union any non-empty bucket into the running set. -/
def cellLookupStep (v2r : List ((ℤ × ℤ × ℤ) × List ℕ)) (c : ℤ × ℤ × ℤ)
    (out : List ℕ) (d : ℤ × ℤ × ℤ) : List ℕ :=
  match alGet v2r (c.1 + d.1, c.2.1 + d.2.1, c.2.2 + d.2.2) with
  | none => out
  | some ids => if ids = [] then out else sUnion out ids

/-- The per-query-point pass of `nearby_residues`. -/
def pointStep (g : NeighborGrid) (rng : ℤ) (out : List ℕ) (point : Vec3) :
    List ℕ :=
  (cellOffsets rng).foldl (cellLookupStep g.vox2res (toKey g.voxel point)) out

/-- `NeighborGrid.nearby_residues(xyzs, radius)`. -/
def nearbyResidues (g : NeighborGrid) (xyzs : List Vec3) (radius : ℚ) :
    List ℕ :=
  let rng : ℤ := ⌈radius / g.voxel⌉
  xyzs.foldl (pointStep g rng) []

/-! ### C2: `nearby_residues` returns every true neighbour -/

theorem abs_le_of_mul_self_le {x r : ℚ} (hr : 0 ≤ r) (h : x * x ≤ r * r) :
    |x| ≤ r := by
  by_contra hc
  push_neg at hc
  nlinarith [abs_mul_abs_self x, abs_nonneg x]

theorem floor_le_floor_add_ceil (x y d : ℚ) (h : x ≤ y + d) :
    ⌊x⌋ ≤ ⌊y⌋ + ⌈d⌉ := by
  have h1 : x ≤ y + (⌈d⌉ : ℚ) := le_trans h (by linarith [Int.le_ceil d])
  calc ⌊x⌋ ≤ ⌊y + (⌈d⌉ : ℚ)⌋ := Int.floor_mono h1
    _ = ⌊y⌋ + ⌈d⌉ := Int.floor_add_int y ⌈d⌉

/-- An atom within `radius` of a query point lands within
`ceil(radius / voxel)` cells of the query point's cell, per axis. -/
theorem key_component_bound (v radius a b : ℚ) (hv : 0 < v)
    (h : |a - b| ≤ radius) :
    -⌈radius / v⌉ ≤ ⌊a / v⌋ - ⌊b / v⌋ ∧ ⌊a / v⌋ - ⌊b / v⌋ ≤ ⌈radius / v⌉ := by
  obtain ⟨hlo, hhi⟩ := abs_le.mp h
  have hab : a ≤ b + radius := by linarith
  have hba : b ≤ a + radius := by linarith
  have h1 : a / v ≤ (b + radius) / v := by gcongr
  have h2 : b / v ≤ (a + radius) / v := by gcongr
  rw [add_div] at h1 h2
  have h3 := floor_le_floor_add_ceil (a / v) (b / v) (radius / v) h1
  have h4 := floor_le_floor_add_ceil (b / v) (a / v) (radius / v) h2
  omega

theorem mem_offsetRange {rng d : ℤ} (h1 : -rng ≤ d) (h2 : d ≤ rng) :
    d ∈ offsetRange rng := by
  unfold offsetRange
  have hx : (d + rng).toNat ∈ List.range (2 * rng + 1).toNat :=
    List.mem_range.mpr (by omega)
  have hm := List.mem_map_of_mem (fun i : ℕ => -rng + (i : ℤ)) hx
  simp only at hm
  rwa [show -rng + ((d + rng).toNat : ℤ) = d by omega] at hm

theorem mem_cellOffsets {rng : ℤ} {d : ℤ × ℤ × ℤ}
    (h1 : d.1 ∈ offsetRange rng) (h2 : d.2.1 ∈ offsetRange rng)
    (h3 : d.2.2 ∈ offsetRange rng) : d ∈ cellOffsets rng := by
  unfold cellOffsets
  rw [List.mem_flatMap]
  refine ⟨d.1, h1, ?_⟩
  rw [List.mem_flatMap]
  refine ⟨d.2.1, h2, ?_⟩
  rw [List.mem_map]
  exact ⟨d.2.2, h3, rfl⟩

theorem cellLookupStep_mono (v2r : List ((ℤ × ℤ × ℤ) × List ℕ))
    (c : ℤ × ℤ × ℤ) (out : List ℕ) (d : ℤ × ℤ × ℤ) (r : ℕ) (h : r ∈ out) :
    r ∈ cellLookupStep v2r c out d := by
  unfold cellLookupStep
  cases halget : alGet v2r (c.1 + d.1, c.2.1 + d.2.1, c.2.2 + d.2.2) with
  | none => exact h
  | some ids =>
      show r ∈ if ids = [] then out else sUnion out ids
      by_cases he : ids = []
      · rw [if_pos he]
        exact h
      · rw [if_neg he]
        exact mem_sUnion_left h

theorem cellLookupStep_hit (v2r : List ((ℤ × ℤ × ℤ) × List ℕ))
    (c : ℤ × ℤ × ℤ) (out : List ℕ) (d : ℤ × ℤ × ℤ) (r : ℕ) (ids : List ℕ)
    (hget : alGet v2r (c.1 + d.1, c.2.1 + d.2.1, c.2.2 + d.2.2) = some ids)
    (hr : r ∈ ids) : r ∈ cellLookupStep v2r c out d := by
  unfold cellLookupStep
  rw [hget]
  show r ∈ if ids = [] then out else sUnion out ids
  rw [if_neg (by rintro rfl; cases hr)]
  exact mem_sUnion_right hr

theorem foldl_cellLookupStep_mono (v2r : List ((ℤ × ℤ × ℤ) × List ℕ))
    (c : ℤ × ℤ × ℤ) (offs : List (ℤ × ℤ × ℤ)) (out : List ℕ) (r : ℕ)
    (h : r ∈ out) : r ∈ offs.foldl (cellLookupStep v2r c) out := by
  induction offs generalizing out with
  | nil => exact h
  | cons d0 rest ih => exact ih _ (cellLookupStep_mono v2r c out d0 r h)

theorem foldl_cellLookupStep_hit (v2r : List ((ℤ × ℤ × ℤ) × List ℕ))
    (c : ℤ × ℤ × ℤ) (offs : List (ℤ × ℤ × ℤ)) (r : ℕ)
    (d : ℤ × ℤ × ℤ) (ids : List ℕ)
    (hget : alGet v2r (c.1 + d.1, c.2.1 + d.2.1, c.2.2 + d.2.2) = some ids)
    (hr : r ∈ ids) :
    ∀ out : List ℕ, d ∈ offs → r ∈ offs.foldl (cellLookupStep v2r c) out := by
  induction offs with
  | nil =>
      intro out hd
      cases hd
  | cons d0 rest ih =>
      intro out hd
      rcases List.mem_cons.mp hd with heq | hdr
      · subst heq
        exact foldl_cellLookupStep_mono v2r c rest _ r
          (cellLookupStep_hit v2r c out d r ids hget hr)
      · exact ih _ hdr

theorem pointStep_mono (g : NeighborGrid) (rng : ℤ) (out : List ℕ)
    (point : Vec3) (r : ℕ) (h : r ∈ out) : r ∈ pointStep g rng out point :=
  foldl_cellLookupStep_mono g.vox2res (toKey g.voxel point) (cellOffsets rng)
    out r h

theorem foldl_pointStep_mono (g : NeighborGrid) (rng : ℤ) (pts : List Vec3)
    (out : List ℕ) (r : ℕ) (h : r ∈ out) :
    r ∈ pts.foldl (pointStep g rng) out := by
  induction pts generalizing out with
  | nil => exact h
  | cons p0 rest ih => exact ih _ (pointStep_mono g rng out p0 r h)

theorem foldl_pointStep_hit (g : NeighborGrid) (rng : ℤ) (pts : List Vec3)
    (r : ℕ) (q : Vec3)
    (hstep : ∀ out2 : List ℕ, r ∈ pointStep g rng out2 q) :
    ∀ out : List ℕ, q ∈ pts → r ∈ pts.foldl (pointStep g rng) out := by
  induction pts with
  | nil =>
      intro out hq
      cases hq
  | cons p0 rest ih =>
      intro out hq
      rcases List.mem_cons.mp hq with heq | hqr
      · subst heq
        exact foldl_pointStep_mono g rng rest _ r (hstep out)
      · exact ih _ hqr

/-- C2: no false negatives — for every grid, query-point list and positive
radius, a residue with an indexed atom position within the radius of some
query point (stated with squared distances: `sqDist p q ≤ radius²`, which for
`radius > 0` is exactly Euclidean distance ≤ radius) is returned by
`nearby_residues`. -/
theorem c2_nearby_residues_no_false_negatives :
    ∀ (g : NeighborGrid) (pts : List Vec3) (radius : ℚ) (r : ℕ) (p q : Vec3),
      0 < g.voxel → 0 < radius → q ∈ pts →
      r ∈ alGetD g.vox2res (toKey g.voxel p) [] →
      sqDist p q ≤ radius * radius →
      r ∈ nearbyResidues g pts radius := by
  intro g pts radius r p q hv hr hq hbucket hdist
  rcases halget : alGet g.vox2res (toKey g.voxel p) with _ | ids
  · rw [alGetD, halget] at hbucket
    cases hbucket
  rw [alGetD, halget] at hbucket
  have hx : |p.1 - q.1| ≤ radius := by
    refine abs_le_of_mul_self_le hr.le ?_
    unfold sqDist at hdist
    nlinarith [mul_self_nonneg (p.2.1 - q.2.1), mul_self_nonneg (p.2.2 - q.2.2)]
  have hy : |p.2.1 - q.2.1| ≤ radius := by
    refine abs_le_of_mul_self_le hr.le ?_
    unfold sqDist at hdist
    nlinarith [mul_self_nonneg (p.1 - q.1), mul_self_nonneg (p.2.2 - q.2.2)]
  have hz : |p.2.2 - q.2.2| ≤ radius := by
    refine abs_le_of_mul_self_le hr.le ?_
    unfold sqDist at hdist
    nlinarith [mul_self_nonneg (p.1 - q.1), mul_self_nonneg (p.2.1 - q.2.1)]
  have hbx := key_component_bound g.voxel radius p.1 q.1 hv hx
  have hby := key_component_bound g.voxel radius p.2.1 q.2.1 hv hy
  have hbz := key_component_bound g.voxel radius p.2.2 q.2.2 hv hz
  unfold nearbyResidues
  have hcell :
      ((toKey g.voxel q).1 + (⌊p.1 / g.voxel⌋ - ⌊q.1 / g.voxel⌋),
        (toKey g.voxel q).2.1 + (⌊p.2.1 / g.voxel⌋ - ⌊q.2.1 / g.voxel⌋),
        (toKey g.voxel q).2.2 + (⌊p.2.2 / g.voxel⌋ - ⌊q.2.2 / g.voxel⌋)) =
        toKey g.voxel p := by
    refine Prod.ext ?_ (Prod.ext ?_ ?_)
    · show ⌊q.1 / g.voxel⌋ + (⌊p.1 / g.voxel⌋ - ⌊q.1 / g.voxel⌋) =
        ⌊p.1 / g.voxel⌋
      omega
    · show ⌊q.2.1 / g.voxel⌋ + (⌊p.2.1 / g.voxel⌋ - ⌊q.2.1 / g.voxel⌋) =
        ⌊p.2.1 / g.voxel⌋
      omega
    · show ⌊q.2.2 / g.voxel⌋ + (⌊p.2.2 / g.voxel⌋ - ⌊q.2.2 / g.voxel⌋) =
        ⌊p.2.2 / g.voxel⌋
      omega
  have hget2 : alGet g.vox2res
      ((toKey g.voxel q).1 + (⌊p.1 / g.voxel⌋ - ⌊q.1 / g.voxel⌋),
        (toKey g.voxel q).2.1 + (⌊p.2.1 / g.voxel⌋ - ⌊q.2.1 / g.voxel⌋),
        (toKey g.voxel q).2.2 + (⌊p.2.2 / g.voxel⌋ - ⌊q.2.2 / g.voxel⌋)) =
      some ids := by
    rw [hcell]
    exact halget
  have hstep : ∀ out2 : List ℕ,
      r ∈ pointStep g ⌈radius / g.voxel⌉ out2 q := by
    intro out2
    unfold pointStep
    exact foldl_cellLookupStep_hit g.vox2res (toKey g.voxel q)
      (cellOffsets ⌈radius / g.voxel⌉) r
      (⌊p.1 / g.voxel⌋ - ⌊q.1 / g.voxel⌋,
        ⌊p.2.1 / g.voxel⌋ - ⌊q.2.1 / g.voxel⌋,
        ⌊p.2.2 / g.voxel⌋ - ⌊q.2.2 / g.voxel⌋) ids hget2 hbucket out2
      (mem_cellOffsets (mem_offsetRange hbx.1 hbx.2)
        (mem_offsetRange hby.1 hby.2) (mem_offsetRange hbz.1 hbz.2))
  exact foldl_pointStep_hit g ⌈radius / g.voxel⌉ pts r q hstep [] hq

/-- A tiny concrete grid for the C2 witness: residue 7 has one atom indexed
in cell `(0,0,0)`. -/
def c2Grid : NeighborGrid :=
  ⟨4, [(((0 : ℤ), (0 : ℤ), (0 : ℤ)), [7])],
    [(7, [((0 : ℤ), (0 : ℤ), (0 : ℤ))])]⟩

/-- Witness for C2: an atom at `(1,0,0)` (cell `(0,0,0)`) queried from
`(5,0,0)` with radius 8. -/
theorem c2_witness :
    (0 : ℚ) < c2Grid.voxel ∧ (0 : ℚ) < 8 ∧
    ((5 : ℚ), (0 : ℚ), (0 : ℚ)) ∈ [((5 : ℚ), (0 : ℚ), (0 : ℚ))] ∧
    7 ∈ alGetD c2Grid.vox2res
      (toKey c2Grid.voxel ((1 : ℚ), (0 : ℚ), (0 : ℚ))) [] ∧
    sqDist ((1 : ℚ), (0 : ℚ), (0 : ℚ)) ((5 : ℚ), (0 : ℚ), (0 : ℚ)) ≤ 8 * 8 ∧
    7 ∈ nearbyResidues c2Grid [((5 : ℚ), (0 : ℚ), (0 : ℚ))] 8 := by
  have hkey : toKey c2Grid.voxel ((1 : ℚ), (0 : ℚ), (0 : ℚ)) =
      ((0 : ℤ), (0 : ℤ), (0 : ℤ)) := by
    show toKey (4 : ℚ) ((1 : ℚ), (0 : ℚ), (0 : ℚ)) = ((0 : ℤ), (0 : ℤ), (0 : ℤ))
    unfold toKey
    norm_num
  have hmem : 7 ∈ alGetD c2Grid.vox2res
      (toKey c2Grid.voxel ((1 : ℚ), (0 : ℚ), (0 : ℚ))) [] := by
    rw [hkey]
    decide
  refine ⟨by norm_num [c2Grid], by norm_num, List.mem_singleton.mpr rfl, hmem,
    by norm_num [sqDist], ?_⟩
  exact c2_nearby_residues_no_false_negatives c2Grid
    [((5 : ℚ), (0 : ℚ), (0 : ℚ))] 8 7 ((1 : ℚ), (0 : ℚ), (0 : ℚ))
    ((5 : ℚ), (0 : ℚ), (0 : ℚ)) (by norm_num [c2Grid]) (by norm_num)
    (List.mem_singleton.mpr rfl) hmem (by norm_num [sqDist])

/-! ### C3: bidirectional consistency of the grid index -/

theorem alGet_append {α β : Type} [DecidableEq α] (l m : List (α × β))
    (x : α) :
    alGet (l ++ m) x =
      match alGet l x with
      | some v => some v
      | none => alGet m x := by
  induction l with
  | nil => rfl
  | cons kv rest ih =>
      obtain ⟨k, v⟩ := kv
      by_cases h : k = x
      · simp [alGet, h]
      · simp only [List.cons_append, alGet, if_neg h]
        exact ih

theorem alGetD_alSetDefault_nil {α β : Type} [DecidableEq α]
    (l : List (α × List β)) (a x : α) :
    alGetD (alSetDefault l a []) x [] = alGetD l x [] := by
  unfold alSetDefault
  cases hga : alGet l a with
  | some v => rfl
  | none =>
      unfold alGetD
      rw [alGet_append]
      cases hgx : alGet l x with
      | some v => rfl
      | none =>
          by_cases hx : a = x
          · subst hx
            simp [alGet]
          · simp [alGet, hx]

/-- The invariant of C3: mutual consistency of the two grid dicts, plus the
fact that no stored bucket is empty (`clear_residue` drops emptied cells). -/
def GridInv (g : NeighborGrid) : Prop :=
  (∀ (r : ℕ) (c : ℤ × ℤ × ℤ),
    r ∈ alGetD g.vox2res c [] ↔ c ∈ alGetD g.res2vox r []) ∧
  (∀ (c : ℤ × ℤ × ℤ) (l : List ℕ), alGet g.vox2res c = some l → l ≠ [])

theorem indexAtom_inv (rid : ℕ) (g : NeighborGrid) (atom : Atom)
    (hinv : GridInv g) : GridInv (indexAtom rid g atom) := by
  obtain ⟨hmut, hne⟩ := hinv
  constructor
  · intro r c
    show r ∈ alGetD (alSet g.vox2res (toKey g.voxel atom.xyz)
        (sAdd (alGetD g.vox2res (toKey g.voxel atom.xyz) []) rid)) c [] ↔
      c ∈ alGetD (alSet g.res2vox rid
        (sAdd (alGetD g.res2vox rid []) (toKey g.voxel atom.xyz))) r []
    by_cases hc : c = toKey g.voxel atom.xyz <;> by_cases hr : r = rid
    · subst hc; subst hr
      unfold alGetD
      rw [alGet_alSet_self, alGet_alSet_self]
      simp only [Option.getD_some]
      rw [mem_sAdd, mem_sAdd]
      constructor
      · intro _
        exact Or.inr rfl
      · intro _
        exact Or.inr rfl
    · subst hc
      unfold alGetD
      rw [alGet_alSet_self, alGet_alSet_ne _ _ _ _ hr]
      simp only [Option.getD_some]
      rw [mem_sAdd]
      constructor
      · rintro (hold | rfl)
        · exact (hmut r _).mp hold
        · exact absurd rfl hr
      · intro hold
        exact Or.inl ((hmut r _).mpr hold)
    · subst hr
      unfold alGetD
      rw [alGet_alSet_ne _ _ _ _ hc, alGet_alSet_self]
      simp only [Option.getD_some]
      rw [mem_sAdd]
      constructor
      · intro hold
        exact Or.inl ((hmut r c).mp hold)
      · rintro (hold | rfl)
        · exact (hmut r c).mpr hold
        · exact absurd rfl hc
    · unfold alGetD
      rw [alGet_alSet_ne _ _ _ _ hc, alGet_alSet_ne _ _ _ _ hr]
      exact hmut r c
  · intro c l hget
    have hget2 : alGet (alSet g.vox2res (toKey g.voxel atom.xyz)
        (sAdd (alGetD g.vox2res (toKey g.voxel atom.xyz) []) rid)) c =
        some l := hget
    by_cases hc : c = toKey g.voxel atom.xyz
    · subst hc
      rw [alGet_alSet_self] at hget2
      have hl : sAdd (alGetD g.vox2res (toKey g.voxel atom.xyz) []) rid = l :=
        Option.some_injective _ hget2
      rw [← hl]
      exact sAdd_ne_nil _ _
    · rw [alGet_alSet_ne _ _ _ _ hc] at hget2
      exact hne c l hget2

theorem setdefault_grid_inv (g : NeighborGrid) (rid : ℕ) (hinv : GridInv g) :
    GridInv { g with res2vox := alSetDefault g.res2vox rid [] } := by
  obtain ⟨hmut, hne⟩ := hinv
  constructor
  · intro r c
    show r ∈ alGetD g.vox2res c [] ↔
      c ∈ alGetD (alSetDefault g.res2vox rid []) r []
    rw [alGetD_alSetDefault_nil]
    exact hmut r c
  · exact hne

theorem foldl_indexAtom_inv (rid : ℕ) (atoms : List Atom) :
    ∀ g : NeighborGrid, GridInv g → GridInv (atoms.foldl (indexAtom rid) g) := by
  induction atoms with
  | nil =>
      intro g hinv
      exact hinv
  | cons a rest ih =>
      intro g hinv
      exact ih _ (indexAtom_inv rid g a hinv)

theorem indexResidue_inv (g : NeighborGrid) (res : Residue)
    (hinv : GridInv g) : GridInv (indexResidue g res) :=
  foldl_indexAtom_inv res.id res.atoms _ (setdefault_grid_inv g res.id hinv)

theorem clearCell_memD (rid : ℕ) (v2r : List ((ℤ × ℤ × ℤ) × List ℕ))
    (k : ℤ × ℤ × ℤ) (x : ℕ) (c : ℤ × ℤ × ℤ) :
    x ∈ alGetD (clearCell rid v2r k) c [] ↔
      x ∈ alGetD v2r c [] ∧ ¬(x = rid ∧ c = k) := by
  unfold clearCell
  by_cases hb : alGetD v2r k [] = []
  · rw [if_pos hb]
    by_cases hc : c = k
    · subst hc
      rw [hb]
      simp
    · constructor
      · intro hx
        exact ⟨hx, fun hand => hc hand.2⟩
      · exact And.left
  · rw [if_neg hb]
    by_cases hfil : (alGetD v2r k []).filter (fun y => y ≠ rid) = []
    · rw [if_pos hfil]
      by_cases hc : c = k
      · subst hc
        rw [alGetD_alPop_self]
        simp only [List.not_mem_nil, false_iff]
        rintro ⟨hx, hno⟩
        have hxr : ¬x = rid := fun he => hno ⟨he, trivial⟩
        have hmem : x ∈ (alGetD v2r c []).filter (fun y => y ≠ rid) :=
          List.mem_filter.mpr ⟨hx, by simpa using hxr⟩
        rw [hfil] at hmem
        exact absurd hmem (List.not_mem_nil x)
      · rw [alGetD_alPop_ne _ _ _ _ hc]
        constructor
        · intro hx
          exact ⟨hx, fun hand => hc hand.2⟩
        · exact And.left
    · rw [if_neg hfil]
      by_cases hc : c = k
      · subst hc
        rw [alGetD_alSet_self]
        simp only [List.mem_filter, decide_eq_true_eq]
        tauto
      · rw [alGetD_alSet_ne _ _ _ _ _ hc]
        constructor
        · intro hx
          exact ⟨hx, fun hand => hc hand.2⟩
        · exact And.left

theorem clearCell_nonempty (rid : ℕ) (v2r : List ((ℤ × ℤ × ℤ) × List ℕ))
    (k : ℤ × ℤ × ℤ)
    (hne : ∀ (c : ℤ × ℤ × ℤ) (l : List ℕ), alGet v2r c = some l → l ≠ []) :
    ∀ (c : ℤ × ℤ × ℤ) (l : List ℕ),
      alGet (clearCell rid v2r k) c = some l → l ≠ [] := by
  unfold clearCell
  by_cases hb : alGetD v2r k [] = []
  · rw [if_pos hb]
    exact hne
  · rw [if_neg hb]
    by_cases hfil : (alGetD v2r k []).filter (fun y => y ≠ rid) = []
    · rw [if_pos hfil]
      intro c l hget
      by_cases hc : c = k
      · subst hc
        rw [alGet_alPop_self] at hget
        cases hget
      · rw [alGet_alPop_ne _ _ _ hc] at hget
        exact hne c l hget
    · rw [if_neg hfil]
      intro c l hget
      by_cases hc : c = k
      · subst hc
        rw [alGet_alSet_self] at hget
        have hl := Option.some_injective _ hget
        rw [← hl]
        exact hfil
      · rw [alGet_alSet_ne _ _ _ _ hc] at hget
        exact hne c l hget

theorem clearLoop_memD (rid : ℕ) (cells : List (ℤ × ℤ × ℤ)) (x : ℕ)
    (c : ℤ × ℤ × ℤ) :
    ∀ v2r : List ((ℤ × ℤ × ℤ) × List ℕ),
      x ∈ alGetD (cells.foldl (clearCell rid) v2r) c [] ↔
        x ∈ alGetD v2r c [] ∧ ¬(x = rid ∧ c ∈ cells) := by
  induction cells with
  | nil =>
      intro v2r
      simp
  | cons k rest ih =>
      intro v2r
      rw [List.foldl_cons, ih (clearCell rid v2r k), clearCell_memD]
      constructor
      · rintro ⟨⟨hx, hnk⟩, hnr⟩
        refine ⟨hx, ?_⟩
        rintro ⟨rfl, hc⟩
        rcases List.mem_cons.mp hc with rfl | hcr
        · exact hnk ⟨rfl, rfl⟩
        · exact hnr ⟨rfl, hcr⟩
      · rintro ⟨hx, hno⟩
        refine ⟨⟨hx, ?_⟩, ?_⟩
        · rintro ⟨rfl, rfl⟩
          exact hno ⟨rfl, List.mem_cons_self _ _⟩
        · rintro ⟨rfl, hcr⟩
          exact hno ⟨rfl, List.mem_cons_of_mem _ hcr⟩

theorem clearLoop_nonempty (rid : ℕ) (cells : List (ℤ × ℤ × ℤ)) :
    ∀ v2r : List ((ℤ × ℤ × ℤ) × List ℕ),
      (∀ (c : ℤ × ℤ × ℤ) (l : List ℕ), alGet v2r c = some l → l ≠ []) →
      ∀ (c : ℤ × ℤ × ℤ) (l : List ℕ),
        alGet (cells.foldl (clearCell rid) v2r) c = some l → l ≠ [] := by
  induction cells with
  | nil =>
      intro v2r hne
      exact hne
  | cons k rest ih =>
      intro v2r hne
      exact ih (clearCell rid v2r k) (clearCell_nonempty rid v2r k hne)

theorem clearResidue_inv (g : NeighborGrid) (rid : ℕ) (hinv : GridInv g) :
    GridInv (clearResidue g rid) := by
  obtain ⟨hmut, hne⟩ := hinv
  constructor
  · intro r c
    show r ∈ alGetD
        ((alGetD g.res2vox rid []).foldl (clearCell rid) g.vox2res) c [] ↔
      c ∈ alGetD (alPop g.res2vox rid) r []
    rw [clearLoop_memD]
    by_cases hr : r = rid
    · subst hr
      unfold alGetD
      rw [alGet_alPop_self]
      simp only [Option.getD_none, List.not_mem_nil, iff_false]
      rintro ⟨hmem, hno⟩
      exact hno ⟨trivial, (hmut r c).mp hmem⟩
    · unfold alGetD
      rw [alGet_alPop_ne _ _ _ hr]
      constructor
      · rintro ⟨hmem, _⟩
        exact (hmut r c).mp hmem
      · intro hc
        exact ⟨(hmut r c).mpr hc, by rintro ⟨rfl, _⟩; exact hr rfl⟩
  · exact clearLoop_nonempty rid (alGetD g.res2vox rid []) g.vox2res hne

/-- One mutation of the grid: `index_residue` or `clear_residue`. -/
inductive GridOp where
  | index (res : Residue)
  | clear (rid : ℕ)

/-- Apply one grid mutation. -/
def applyOp (g : NeighborGrid) : GridOp → NeighborGrid
  | .index res => indexResidue g res
  | .clear rid => clearResidue g rid

/-- Apply a finite sequence of grid mutations in order. -/
def applyOps (ops : List GridOp) (g : NeighborGrid) : NeighborGrid :=
  ops.foldl applyOp g

/-- A fresh `NeighborGrid()` with the default voxel size 4.0. -/
def emptyGrid : NeighborGrid := ⟨4, [], []⟩

theorem applyOp_inv (g : NeighborGrid) (op : GridOp) (hinv : GridInv g) :
    GridInv (applyOp g op) := by
  cases op with
  | index res => exact indexResidue_inv g res hinv
  | clear rid => exact clearResidue_inv g rid hinv

theorem applyOps_inv (ops : List GridOp) :
    ∀ g : NeighborGrid, GridInv g → GridInv (applyOps ops g) := by
  induction ops with
  | nil =>
      intro g hinv
      exact hinv
  | cons op rest ih =>
      intro g hinv
      exact ih _ (applyOp_inv g op hinv)

theorem emptyGrid_inv : GridInv emptyGrid := by
  constructor
  · intro r c
    simp [alGetD, alGet, emptyGrid]
  · intro c l hget
    cases hget

/-- C3: after any finite sequence of `index_residue`/`clear_residue` calls on
an initially empty grid (which covers the call sequences performed by
`State.from_residues` and `State.update_residue_coords`), a residue id is in
`vox2res[c]` iff `c` is in `res2vox[r]`, and no stored cell has an empty
residue set (emptied cells are dropped). -/
theorem c3_grid_bidirectional_consistency :
    ∀ (ops : List GridOp) (r : ℕ) (c : ℤ × ℤ × ℤ),
      (r ∈ alGetD (applyOps ops emptyGrid).vox2res c [] ↔
        c ∈ alGetD (applyOps ops emptyGrid).res2vox r []) ∧
      ∀ l : List ℕ, alGet (applyOps ops emptyGrid).vox2res c = some l →
        l ≠ [] := by
  intro ops r c
  obtain ⟨hmut, hne⟩ := applyOps_inv ops emptyGrid emptyGrid_inv
  exact ⟨hmut r c, fun l => hne c l⟩

/-- A one-atom residue for the C3 witness. -/
def c3Res : Residue := ⟨5, "GLY", [⟨(5, "CA"), ((0 : ℚ), 0, 0)⟩]⟩

/-- Witness for C3: indexing one residue from the empty grid produces the
bucket `[5]` in cell `(0,0,0)`; the invariant instantiates there. -/
theorem c3_witness :
    alGet (applyOps [GridOp.index c3Res] emptyGrid).vox2res
        ((0 : ℤ), (0 : ℤ), (0 : ℤ)) = some [5] ∧
    ([5] : List ℕ) ≠ [] ∧
    (5 ∈ alGetD (applyOps [GridOp.index c3Res] emptyGrid).vox2res
        ((0 : ℤ), (0 : ℤ), (0 : ℤ)) [] ↔
      ((0 : ℤ), (0 : ℤ), (0 : ℤ)) ∈
        alGetD (applyOps [GridOp.index c3Res] emptyGrid).res2vox 5 []) := by
  have hkey : toKey (4 : ℚ) (0 : Vec3) = (0 : ℤ × ℤ × ℤ) := by
    unfold toKey
    norm_num
  have hg : applyOps [GridOp.index c3Res] emptyGrid =
      ⟨4, [(((0 : ℤ), (0 : ℤ), (0 : ℤ)), [5])],
        [(5, [((0 : ℤ), (0 : ℤ), (0 : ℤ))])]⟩ := by
    show indexAtom 5 ⟨4, [], [(5, [])]⟩ ⟨(5, "CA"), ((0 : ℚ), 0, 0)⟩ = _
    simp [indexAtom, hkey, alGetD, alGet, alSet, sAdd]
  have h1 : alGet (applyOps [GridOp.index c3Res] emptyGrid).vox2res
      ((0 : ℤ), (0 : ℤ), (0 : ℤ)) = some [5] := by
    rw [hg]
    decide
  have hthm := c3_grid_bidirectional_consistency [GridOp.index c3Res] 5
    ((0 : ℤ), (0 : ℤ), (0 : ℤ))
  exact ⟨h1, hthm.2 [5] h1, hthm.1⟩

/-! ### `state.py` / `score.py` / `submissions.py`: State containers and the
incremental scoring orchestrator.

Python `dict` lookups that raise `KeyError` on ids absent from the state
(`state.residues[nid]`) are modelled with an inert default residue; that
default is never consulted in any theorem below, whose states only ever look
up ids recorded in their own maps. `residue.atoms[0]` (an `IndexError` on an
atom-free residue) is modelled with `List.headD`; all reachable residues have
three atoms. Python iterates the `PAIR_TERMS`/`SINGLE_TERMS` sets and the
`todo` set in unspecified order; the embedding fixes a list order, and every
quantity the theorems mention (dict contents, sums) is order-insensitive. -/

/-- `PerResScore` from `state.py`. -/
structure PerResScore where
  terms : List (String × ℝ)
  total : ℝ
  version : ℕ

/-- `ScoreStats` from `state.py`. -/
structure ScoreStats where
  termEvalCalls : List (String × ℕ)
  fullPasses : ℕ
  incrementalPasses : ℕ

/-- The default `ScoreStats()`. -/
def initialStats : ScoreStats :=
  ⟨[("clash", 0), ("rama", 0), ("rotamer", 0), ("ss", 0), ("compact", 0),
    ("hbond", 0)], 0, 0⟩

/-- `ScoreStats.bump`. -/
def ScoreStats.bump (st : ScoreStats) (term : String) (n : ℕ) : ScoreStats :=
  { st with
    termEvalCalls :=
      alSet st.termEvalCalls term (alGetD st.termEvalCalls term 0 + n) }

/-- `State` from `state.py`. -/
structure State where
  residues : List (ℕ × Residue)
  atomIndex : List ((ℕ × String) × Vec3)
  grid : NeighborGrid
  perResCache : List (ℕ × PerResScore)
  weights : List (String × ℚ)
  stats : ScoreStats

/-- `SCORE_WEIGHTS` from `score_math.py`. -/
def SCORE_WEIGHTS : List (String × ℚ) :=
  [("clash", 1), ("rama", 1), ("rotamer", 1), ("ss", 1), ("compact", 1),
   ("hbond", 1)]

/-- `ALL_TERMS` from `score.py`. -/
def ALL_TERMS : List String :=
  ["clash", "rama", "rotamer", "ss", "compact", "hbond"]

/-- `SINGLE_TERMS` (a Python set; iterated here in this fixed order). -/
def SINGLE_TERMS : List String := ["rama", "rotamer", "ss"]

/-- `PAIR_TERMS` (a Python set; iterated here in this fixed order). -/
def PAIR_TERMS : List String := ["clash", "compact", "hbond"]

/-- One residue of the `State.from_residues` loop. -/
def frStep (s : State) (residue : Residue) : State :=
  { s with
    residues := alSet s.residues residue.id residue,
    atomIndex := residue.atoms.foldl
      (fun ai atom => alSet ai atom.id atom.xyz) s.atomIndex,
    grid := indexResidue s.grid residue }

/-- `State.from_residues`. -/
def from_residues (rs : List Residue) (weights : List (String × ℚ)) : State :=
  rs.foldl frStep ⟨[], [], ⟨4, [], []⟩, [], weights, initialStats⟩

/-- One iteration of the atom loop in `update_residue_coords`: atoms whose
name is a key of the move map take the new position (in the residue record
and the flat atom index); other atoms pass through unchanged. -/
def updStep (newXyz : List (String × Vec3))
    (acc : List Atom × List ((ℕ × String) × Vec3)) (atom : Atom) :
    List Atom × List ((ℕ × String) × Vec3) :=
  match alGet newXyz atom.id.2 with
  | some p => (acc.1 ++ [{ atom with xyz := p }], alSet acc.2 atom.id p)
  | none => (acc.1 ++ [atom], acc.2)

/-- The effect of `update_residue_coords` on one atom record. -/
def updAtom (newXyz : List (String × Vec3)) (a : Atom) : Atom :=
  match alGet newXyz a.id.2 with
  | some p => { a with xyz := p }
  | none => a

/-- `State.update_residue_coords` (a `KeyError` on an unknown residue id is
`none`). -/
def update_residue_coords (s : State) (resId : ℕ)
    (newXyz : List (String × Vec3)) : Option State :=
  match alGet s.residues resId with
  | none => none
  | some residue =>
      let g1 := clearResidue s.grid resId
      let pair := residue.atoms.foldl (updStep newXyz) ([], s.atomIndex)
      let residue2 : Residue := { residue with atoms := pair.1 }
      some
        { s with
          residues := alSet s.residues resId residue2,
          atomIndex := pair.2,
          grid := indexResidue g1 residue2 }

/-- `_dist` from `score.py`. -/
noncomputable def pyDist (a b : Vec3) : ℝ := Real.sqrt ((sqDist a b : ℚ) : ℝ)

/-- `a.atoms[0].xyz` (IndexError on an atom-free residue, never reached). -/
def firstAtomXyz (r : Residue) : Vec3 :=
  (r.atoms.headD ⟨(0, ""), ((0 : ℚ), 0, 0)⟩).xyz

/-- `state.residues[rid]` (KeyError modelled by an inert default). -/
def getResidue (s : State) (rid : ℕ) : Residue :=
  alGetD s.residues rid ⟨0, "", []⟩

/-- The value of `_pair_term_stub` (computed after the statistics bump). -/
noncomputable def pairTermValue (term : String) (a b : Residue) : ℝ :=
  let d := max (pyDist (firstAtomXyz a) (firstAtomXyz b)) ((1 / 1000 : ℚ) : ℝ)
  if term = "clash" then 1 / (d * d)
  else if term = "compact" then 1 / d
  else if term = "hbond" then ((1 / 2 : ℚ) : ℝ) / d
  else 0

/-- `_pair_term_stub` from `score.py`. -/
noncomputable def pair_term_stub (stats : ScoreStats) (term : String)
    (a b : Residue) : ScoreStats × ℝ :=
  (stats.bump term 1, pairTermValue term a b)

/-- The value of `_single_term_stub` (`0.01`, `0.02`, `0.015` exactly). -/
noncomputable def singleTermValue (term : String) (residue : Residue) : ℝ :=
  if term = "rama" then
    ((1 / 100 : ℚ) : ℝ) * (((residue.id % 10 : ℕ) : ℝ) - 5)
  else if term = "rotamer" then
    ((1 / 50 : ℚ) : ℝ) * (((residue.id % 7 : ℕ) : ℝ) - 3)
  else if term = "ss" then
    ((3 / 200 : ℚ) : ℝ) * (((residue.id % 5 : ℕ) : ℝ) - 2)
  else 0

/-- `_single_term_stub` from `score.py`. -/
noncomputable def single_term_stub (stats : ScoreStats) (term : String)
    (residue : Residue) : ScoreStats × ℝ :=
  (stats.bump term 1, singleTermValue term residue)

/-- The `terms[term] = _single_term_stub(...)` iteration. -/
noncomputable def singleFoldStep (residue : Residue)
    (acc : ScoreStats × List (String × ℝ)) (term : String) :
    ScoreStats × List (String × ℝ) :=
  let r := single_term_stub acc.1 term residue
  (r.1, alSet acc.2 term r.2)

/-- The `value += 0.5 * contrib` neighbour iteration of a pair term. -/
noncomputable def pairInnerStep (s : State) (resId : ℕ) (residue : Residue)
    (term : String) (vi : ScoreStats × ℝ) (nid : ℕ) : ScoreStats × ℝ :=
  if nid = resId then vi
  else
    let r := pair_term_stub vi.1 term residue (getResidue s nid)
    (r.1, vi.2 + ((1 / 2 : ℚ) : ℝ) * r.2)

/-- The `terms[term] = value` iteration over the pair terms. -/
noncomputable def pairFoldStep (s : State) (resId : ℕ) (residue : Residue)
    (neighborIds : List ℕ) (acc : ScoreStats × List (String × ℝ))
    (term : String) : ScoreStats × List (String × ℝ) :=
  let inner := neighborIds.foldl (pairInnerStep s resId residue term)
    (acc.1, 0)
  (inner.1, alSet acc.2 term inner.2)

/-- `compute_per_residue_terms` from `score.py`: single terms once, pair
terms as half-shares over the neighbour ids (skipping the residue itself),
threading the evaluation-count statistics. -/
noncomputable def compute_per_residue_terms (s : State) (resId : ℕ)
    (neighborIds : List ℕ) : ScoreStats × List (String × ℝ) :=
  let residue := getResidue s resId
  PAIR_TERMS.foldl (pairFoldStep s resId residue neighborIds)
    (SINGLE_TERMS.foldl (singleFoldStep residue)
      (s.stats, ALL_TERMS.map (fun n => (n, (0 : ℝ)))))

/-- `compose_weighted_total` from `score.py`. -/
noncomputable def compose_weighted_total (terms : List (String × ℝ))
    (weights : List (String × ℚ)) : ℝ :=
  terms.foldl (fun acc kv => acc + kv.2 * ((alGetD weights kv.1 1 : ℚ) : ℝ)) 0

/-- One residue recomputation of `_ensure_cache_for_all`. -/
noncomputable def ensureStep (st : State) (rid : ℕ) : State :=
  let neighbours := nearbyResidues st.grid [firstAtomXyz (getResidue st rid)] 8
  let r := compute_per_residue_terms st rid neighbours
  { st with
    stats := r.1,
    perResCache := alSet st.perResCache rid
      ⟨r.2, compose_weighted_total r.2 st.weights, 1⟩ }

/-- `_ensure_cache_for_all` from `score.py`. -/
noncomputable def ensure_cache_for_all (s : State) : State :=
  (alKeys s.residues).foldl ensureStep
    { s with stats := { s.stats with fullPasses := s.stats.fullPasses + 1 } }

/-- The score payload returned by `score_total`. -/
structure ScoreOut where
  score : ℝ
  terms : List (String × ℝ)
  perRes : List (ℕ × (ℝ × List (String × ℝ)))

/-- The aggregation loop of `score_total`: sum cached totals, accumulate
weighted per-term totals, and collect the per-residue breakdown. (The Python
`term_totals[term] +=` raises on a term missing from `ALL_TERMS`; reachable
cache entries carry exactly `ALL_TERMS`, and the model totalises the update.) -/
noncomputable def aggregateScore (s : State) : ScoreOut :=
  let res := s.perResCache.foldl
    (fun (acc : ℝ × List (String × ℝ) × List (ℕ × (ℝ × List (String × ℝ))))
        kv =>
      (acc.1 + kv.2.total,
        kv.2.terms.foldl
          (fun tt t =>
            alSet tt t.1 (alGetD tt t.1 0 + t.2 * ((alGetD s.weights t.1 1 : ℚ) : ℝ)))
          acc.2.1,
        acc.2.2 ++ [(kv.1, (kv.2.total, kv.2.terms))]))
    (0, ALL_TERMS.map (fun n => (n, (0 : ℝ))), [])
  ⟨res.1, res.2.1, res.2.2⟩

/-- `score_total` from `score.py`: fill the cache on first use, then
aggregate. The mutated state is returned alongside the payload. -/
noncomputable def score_total (s : State) : State × ScoreOut :=
  let s2 :=
    match s.perResCache with
    | [] => ensure_cache_for_all s
    | _ :: _ => s
  (s2, aggregateScore s2)

/-- One residue recomputation of `local_rescore` (bumping the version). -/
noncomputable def rescoreStep (st : State) (rid : ℕ) : State :=
  let neighbours := nearbyResidues st.grid [firstAtomXyz (getResidue st rid)] 8
  let r := compute_per_residue_terms st rid neighbours
  let version :=
    match alGet st.perResCache rid with
    | some prev => prev.version + 1
    | none => 1
  { st with
    stats := r.1,
    perResCache := alSet st.perResCache rid
      ⟨r.2, compose_weighted_total r.2 st.weights, version⟩ }

/-- `local_rescore` from `score.py`. -/
noncomputable def local_rescore (s : State) (affected : List ℕ) :
    State × ScoreOut :=
  let s1 := { s with
    stats := { s.stats with
      incrementalPasses := s.stats.incrementalPasses + 1 } }
  let moved := affected.flatMap
    (fun rid => (getResidue s1 rid).atoms.map (fun a => a.xyz))
  let todo := sUnion (nearbyResidues s1.grid moved 8) affected
  score_total (todo.foldl rescoreStep s1)

/-- `initialise_weights` from `score.py`. -/
def initialise_weights (s : State) : State :=
  if s.weights = [] then { s with weights := SCORE_WEIGHTS } else s

/-- `_ONE_LETTER_TO_THREE` from `submissions.py`. -/
def ONE_LETTER_TO_THREE : List (String × String) :=
  [("A", "ALA"), ("R", "ARG"), ("N", "ASN"), ("D", "ASP"), ("C", "CYS"),
   ("Q", "GLN"), ("E", "GLU"), ("G", "GLY"), ("H", "HIS"), ("I", "ILE"),
   ("L", "LEU"), ("K", "LYS"), ("M", "MET"), ("F", "PHE"), ("P", "PRO"),
   ("S", "SER"), ("T", "THR"), ("W", "TRP"), ("Y", "TYR"), ("V", "VAL")]

/-- The residue-construction loop of `build_state`: three N/CA/C coordinates
per sequence position (a short slice fails to unpack: `none`). -/
def buildResidues : List Char → List Vec3 → ℕ → Option (List Residue)
  | [], _, _ => some []
  | c :: cs, p1 :: p2 :: p3 :: rest, idx =>
      (buildResidues cs rest (idx + 1)).map fun rs =>
        ⟨idx, alGetD ONE_LETTER_TO_THREE (strUpper (String.singleton c)) "UNK",
          [⟨(idx, "N"), p1⟩, ⟨(idx, "CA"), p2⟩, ⟨(idx, "C"), p3⟩]⟩ :: rs
  | _ :: _, _, _ => none

/-- `build_state` from `submissions.py`. -/
def build_state (sequence : List Char) (coords : List Vec3) : Option State :=
  (buildResidues sequence coords 0).map fun rs =>
    initialise_weights (from_residues rs SCORE_WEIGHTS)

/-! ### C10: `score_total` is a pure read on a warm cache -/

/-- C10: on any State whose per-residue cache is non-empty, `score_total`
returns the state unchanged (cache entries and versions, weights, and all
statistics included), and a second consecutive call returns the same payload. -/
theorem c10_score_total_pure_on_warm_cache :
    ∀ s : State, s.perResCache ≠ [] →
      (score_total s).1 = s ∧
      (score_total ((score_total s).1)).2 = (score_total s).2 := by
  intro s h
  have h1 : (score_total s).1 = s := by
    unfold score_total
    cases hc : s.perResCache with
    | nil => exact absurd hc h
    | cons kv rest => rfl
  exact ⟨h1, by rw [h1]⟩

/-- A concrete warm-cache state for the C10 witness. -/
noncomputable def c10State : State :=
  ⟨[(0, ⟨0, "GLY", [⟨(0, "CA"), ((0 : ℚ), 0, 0)⟩]⟩)],
    [((0, "CA"), ((0 : ℚ), 0, 0))], ⟨4, [], []⟩,
    [(0, ⟨[("clash", 0)], 0, 1⟩)], SCORE_WEIGHTS, initialStats⟩

/-- Witness for C10 at a concrete warm-cache state. -/
theorem c10_witness :
    c10State.perResCache ≠ [] ∧
    (score_total c10State).1 = c10State ∧
    (score_total ((score_total c10State).1)).2 = (score_total c10State).2 := by
  have hne : c10State.perResCache ≠ [] := by
    show [(0, (⟨[("clash", 0)], 0, 1⟩ : PerResScore))] ≠ []
    simp
  exact ⟨hne, c10_score_total_pure_on_warm_cache c10State hne⟩

/-! ### C9: the frame property of `update_residue_coords` -/

theorem alGet_mem {α β : Type} [DecidableEq α] {l : List (α × β)} {x : α}
    {v : β} (h : alGet l x = some v) : (x, v) ∈ l := by
  induction l with
  | nil => cases h
  | cons kv rest ih =>
      obtain ⟨k, w⟩ := kv
      by_cases hk : k = x
      · subst hk
        rw [alGet, if_pos rfl] at h
        have hv := Option.some_injective _ h
        rw [hv]
        exact List.mem_cons_self _ _
      · rw [alGet, if_neg hk] at h
        exact List.mem_cons_of_mem _ (ih h)

theorem updStep_fold_atoms (newXyz : List (String × Vec3))
    (atoms : List Atom) :
    ∀ acc : List Atom × List ((ℕ × String) × Vec3),
      (atoms.foldl (updStep newXyz) acc).1 =
        acc.1 ++ atoms.map (updAtom newXyz) := by
  induction atoms with
  | nil =>
      intro acc
      simp
  | cons a rest ih =>
      intro acc
      rw [List.foldl_cons, List.map_cons, ih]
      unfold updStep updAtom
      cases hga : alGet newXyz a.id.2 with
      | some p => simp
      | none => simp

theorem updStep_fold_index (newXyz : List (String × Vec3))
    (atoms : List Atom) :
    ∀ (acc : List Atom × List ((ℕ × String) × Vec3)) (aid : ℕ × String),
      (∀ b ∈ atoms, alGet newXyz b.id.2 ≠ none → b.id ≠ aid) →
      alGet (atoms.foldl (updStep newXyz) acc).2 aid = alGet acc.2 aid := by
  induction atoms with
  | nil =>
      intro acc aid _
      rfl
  | cons a rest ih =>
      intro acc aid hno
      rw [List.foldl_cons]
      rw [ih _ aid (fun b hb => hno b (List.mem_cons_of_mem a hb))]
      unfold updStep
      cases hga : alGet newXyz a.id.2 with
      | some p =>
          have hne : a.id ≠ aid :=
            hno a (List.mem_cons_self a rest) (by rw [hga]; exact fun he => Option.noConfusion he)
          exact alGet_alSet_ne _ _ _ _ (fun he => hne he.symm) |>.symm ▸ rfl
      | none => rfl

/-- Well-formedness, true of every State the repository builds: each residue
is keyed by its own id and every atom id carries its residue's id. -/
def WFState (s : State) : Prop :=
  ∀ p ∈ s.residues, p.2.id = p.1 ∧ ∀ a ∈ p.2.atoms, a.id.1 = p.1

/-- C9: `update_residue_coords` changes only the atoms of the target residue
whose names are keys of the move map — every other residue's record is
untouched, atom-index entries of other residues are untouched, and atoms of
the target residue not named in the map keep their positions in both the
residue record and the flat atom index; names in the map matching no atom are
silently ignored (the call still succeeds, per the `updAtom` description of
the result). -/
theorem c9_update_residue_coords_frame :
    ∀ (s : State) (rid : ℕ) (m : List (String × Vec3)) (res : Residue),
      WFState s → alGet s.residues rid = some res →
      ∃ s2 : State, update_residue_coords s rid m = some s2 ∧
        (∀ r2 : ℕ, r2 ≠ rid → alGet s2.residues r2 = alGet s.residues r2) ∧
        (∃ res2 : Residue, alGet s2.residues rid = some res2 ∧
          res2.atoms = res.atoms.map (updAtom m)) ∧
        (∀ aid : ℕ × String, aid.1 ≠ rid →
          alGet s2.atomIndex aid = alGet s.atomIndex aid) ∧
        (∀ a ∈ res.atoms, alGet m a.id.2 = none →
          alGet s2.atomIndex a.id = alGet s.atomIndex a.id) := by
  intro s rid m res hwf hres
  have hatoms : ∀ a ∈ res.atoms, a.id.1 = rid :=
    (hwf (rid, res) (alGet_mem hres)).2
  refine ⟨{ s with
      residues := alSet s.residues rid
        { res with atoms := (res.atoms.foldl (updStep m) ([], s.atomIndex)).1 },
      atomIndex := (res.atoms.foldl (updStep m) ([], s.atomIndex)).2,
      grid := indexResidue (clearResidue s.grid rid)
        { res with
          atoms := (res.atoms.foldl (updStep m) ([], s.atomIndex)).1 } },
    ?_, ?_, ?_, ?_, ?_⟩
  · unfold update_residue_coords
    rw [hres]
  · intro r2 hr2
    exact alGet_alSet_ne _ _ _ _ hr2
  · refine ⟨_, alGet_alSet_self _ _ _, ?_⟩
    show (res.atoms.foldl (updStep m) ([], s.atomIndex)).1 =
      res.atoms.map (updAtom m)
    rw [updStep_fold_atoms]
    rfl
  · intro aid haid
    show alGet (res.atoms.foldl (updStep m) ([], s.atomIndex)).2 aid =
      alGet s.atomIndex aid
    exact updStep_fold_index m res.atoms ([], s.atomIndex) aid
      (fun b hb _ he => haid (he ▸ hatoms b hb))
  · intro a ha hnone
    show alGet (res.atoms.foldl (updStep m) ([], s.atomIndex)).2 a.id =
      alGet s.atomIndex a.id
    refine updStep_fold_index m res.atoms ([], s.atomIndex) a.id ?_
    intro b hb hbsome he
    have h2 : b.id.2 = a.id.2 := by rw [he]
    rw [h2, hnone] at hbsome
    exact hbsome rfl

/-- The target residue of the C9 witness. -/
def c9Res : Residue :=
  ⟨1, "ALA", [⟨(1, "CA"), ((0 : ℚ), 0, 0)⟩, ⟨(1, "N"), ((1 : ℚ), 0, 0)⟩]⟩

/-- A concrete two-residue state for the C9 witness. -/
def c9State : State :=
  ⟨[(1, c9Res), (2, ⟨2, "GLY", [⟨(2, "CA"), ((9 : ℚ), 0, 0)⟩]⟩)],
    [((1, "CA"), ((0 : ℚ), 0, 0)), ((1, "N"), ((1 : ℚ), 0, 0)),
      ((2, "CA"), ((9 : ℚ), 0, 0))],
    ⟨4, [], []⟩, [], SCORE_WEIGHTS, initialStats⟩

/-- The move map of the C9 witness: rename CA, plus a name `ZZ` matching no
atom (silently ignored). -/
def c9Move : List (String × Vec3) :=
  [("CA", ((5 : ℚ), 0, 0)), ("ZZ", ((7 : ℚ), 7, 7))]

/-- Witness for C9: move residue 1's CA; residue 2 and the unnamed `N` atom
keep their positions. -/
theorem c9_witness :
    WFState c9State ∧
    alGet c9State.residues 1 = some c9Res ∧
    (∃ s2 : State,
      update_residue_coords c9State 1 c9Move = some s2 ∧
      (∀ r2 : ℕ, r2 ≠ 1 → alGet s2.residues r2 = alGet c9State.residues r2) ∧
      (∃ res2 : Residue, alGet s2.residues 1 = some res2 ∧
        res2.atoms = c9Res.atoms.map (updAtom c9Move)) ∧
      (∀ aid : ℕ × String, aid.1 ≠ 1 →
        alGet s2.atomIndex aid = alGet c9State.atomIndex aid) ∧
      (∀ a ∈ c9Res.atoms, alGet c9Move a.id.2 = none →
        alGet s2.atomIndex a.id = alGet c9State.atomIndex a.id)) := by
  have hwf : WFState c9State := by
    unfold WFState c9State c9Res
    decide
  have hres : alGet c9State.residues 1 = some c9Res := by
    unfold c9State c9Res
    decide
  exact ⟨hwf, hres,
    c9_update_residue_coords_frame c9State 1 c9Move c9Res hwf hres⟩

/-! ### C4: cache lifecycle and the weighted-total invariant -/

theorem buildResidues_ok :
    ∀ (seq : List Char) (coords : List Vec3) (idx : ℕ),
      coords.length = 3 * seq.length →
      ∃ rs : List Residue, buildResidues seq coords idx = some rs := by
  intro seq
  induction seq with
  | nil =>
      intro coords idx _
      exact ⟨[], rfl⟩
  | cons c cs ih =>
      intro coords idx h
      rcases coords with _ | ⟨p1, _ | ⟨p2, _ | ⟨p3, rest⟩⟩⟩
      · simp only [List.length_nil, List.length_cons] at h
        omega
      · simp only [List.length_nil, List.length_cons] at h
        omega
      · simp only [List.length_nil, List.length_cons] at h
        omega
      · have hlen : rest.length = 3 * cs.length := by
          simp only [List.length_cons] at h
          omega
        obtain ⟨rs, hrs⟩ := ih rest (idx + 1) hlen
        refine ⟨⟨idx,
          alGetD ONE_LETTER_TO_THREE (strUpper (String.singleton c)) "UNK",
          [⟨(idx, "N"), p1⟩, ⟨(idx, "CA"), p2⟩, ⟨(idx, "C"), p3⟩]⟩ :: rs, ?_⟩
        simp only [buildResidues]
        rw [hrs]
        rfl

theorem frFold_cache (rs : List Residue) :
    ∀ s : State, (rs.foldl frStep s).perResCache = s.perResCache := by
  induction rs with
  | nil =>
      intro s
      rfl
  | cons r rest ih =>
      intro s
      rw [List.foldl_cons, ih]
      rfl

theorem frFold_weights (rs : List Residue) :
    ∀ s : State, (rs.foldl frStep s).weights = s.weights := by
  induction rs with
  | nil =>
      intro s
      rfl
  | cons r rest ih =>
      intro s
      rw [List.foldl_cons, ih]
      rfl

theorem frFold_stats (rs : List Residue) :
    ∀ s : State, (rs.foldl frStep s).stats = s.stats := by
  induction rs with
  | nil =>
      intro s
      rfl
  | cons r rest ih =>
      intro s
      rw [List.foldl_cons, ih]
      rfl

theorem initialise_weights_ne (s : State) (h : s.weights ≠ []) :
    initialise_weights s = s := by
  unfold initialise_weights
  rw [if_neg h]

theorem build_state_some (seq : List Char) (coords : List Vec3)
    (h : coords.length = 3 * seq.length) :
    ∃ rs : List Residue, buildResidues seq coords 0 = some rs ∧
      build_state seq coords = some (from_residues rs SCORE_WEIGHTS) := by
  obtain ⟨rs, hrs⟩ := buildResidues_ok seq coords 0 h
  refine ⟨rs, hrs, ?_⟩
  unfold build_state
  rw [hrs]
  have hw : (from_residues rs SCORE_WEIGHTS).weights ≠ [] := by
    unfold from_residues
    rw [frFold_weights]
    simp [SCORE_WEIGHTS]
  show some (initialise_weights (from_residues rs SCORE_WEIGHTS)) =
    some (from_residues rs SCORE_WEIGHTS)
  rw [initialise_weights_ne _ hw]

theorem singleFold_fullPasses (terms : List String) (res : Residue) :
    ∀ acc : ScoreStats × List (String × ℝ),
      (terms.foldl (singleFoldStep res) acc).1.fullPasses =
        acc.1.fullPasses := by
  induction terms with
  | nil =>
      intro acc
      rfl
  | cons t ts ih =>
      intro acc
      rw [List.foldl_cons, ih]
      rfl

theorem pairInner_fullPasses (s : State) (resId : ℕ) (res : Residue)
    (t : String) (nbrs : List ℕ) :
    ∀ vi : ScoreStats × ℝ,
      (nbrs.foldl (pairInnerStep s resId res t) vi).1.fullPasses =
        vi.1.fullPasses := by
  induction nbrs with
  | nil =>
      intro vi
      rfl
  | cons n ns ih =>
      intro vi
      rw [List.foldl_cons, ih]
      unfold pairInnerStep
      by_cases h : n = resId
      · rw [if_pos h]
      · rw [if_neg h]
        rfl

theorem pairFold_fullPasses (s : State) (resId : ℕ) (res : Residue)
    (nbrs : List ℕ) (terms : List String) :
    ∀ acc : ScoreStats × List (String × ℝ),
      (terms.foldl (pairFoldStep s resId res nbrs) acc).1.fullPasses =
        acc.1.fullPasses := by
  induction terms with
  | nil =>
      intro acc
      rfl
  | cons t ts ih =>
      intro acc
      rw [List.foldl_cons, ih]
      show (nbrs.foldl (pairInnerStep s resId res t) (acc.1, 0)).1.fullPasses =
        acc.1.fullPasses
      rw [pairInner_fullPasses]

theorem compute_fullPasses (s : State) (resId : ℕ) (nbrs : List ℕ) :
    (compute_per_residue_terms s resId nbrs).1.fullPasses =
      s.stats.fullPasses := by
  unfold compute_per_residue_terms
  rw [pairFold_fullPasses, singleFold_fullPasses]

theorem ensureFold_residues (ids : List ℕ) :
    ∀ st : State, (ids.foldl ensureStep st).residues = st.residues := by
  induction ids with
  | nil =>
      intro st
      rfl
  | cons i rest ih =>
      intro st
      rw [List.foldl_cons, ih]
      rfl

theorem ensureFold_weights (ids : List ℕ) :
    ∀ st : State, (ids.foldl ensureStep st).weights = st.weights := by
  induction ids with
  | nil =>
      intro st
      rfl
  | cons i rest ih =>
      intro st
      rw [List.foldl_cons, ih]
      rfl

theorem ensureFold_fullPasses (ids : List ℕ) :
    ∀ st : State, (ids.foldl ensureStep st).stats.fullPasses =
      st.stats.fullPasses := by
  induction ids with
  | nil =>
      intro st
      rfl
  | cons i rest ih =>
      intro st
      rw [List.foldl_cons, ih]
      show (compute_per_residue_terms st i _).1.fullPasses =
        st.stats.fullPasses
      rw [compute_fullPasses]

theorem ensureFold_cache (ids : List ℕ) :
    ∀ (st : State) (rid : ℕ),
      (rid ∈ ids ∨ ∃ e : PerResScore, alGet st.perResCache rid = some e ∧
        e.total = compose_weighted_total e.terms st.weights) →
      ∃ e : PerResScore,
        alGet (ids.foldl ensureStep st).perResCache rid = some e ∧
          e.total = compose_weighted_total e.terms st.weights := by
  induction ids with
  | nil =>
      intro st rid h
      rcases h with h | h
      · exact absurd h (List.not_mem_nil rid)
      · exact h
  | cons i rest ih =>
      intro st rid h
      rw [List.foldl_cons]
      by_cases hri : rid = i
      · subst hri
        refine ih (ensureStep st rid) rid (Or.inr
          ⟨⟨(compute_per_residue_terms st rid (nearbyResidues st.grid
              [firstAtomXyz (getResidue st rid)] 8)).2,
            compose_weighted_total
              (compute_per_residue_terms st rid (nearbyResidues st.grid
                [firstAtomXyz (getResidue st rid)] 8)).2 st.weights, 1⟩,
            ?_, rfl⟩)
        exact alGet_alSet_self _ _ _
      · rcases h with hmem | ⟨e, hge, hP⟩
        · rcases List.mem_cons.mp hmem with heq | hrest
          · exact absurd heq hri
          · exact ih (ensureStep st i) rid (Or.inl hrest)
        · refine ih (ensureStep st i) rid (Or.inr ⟨e, ?_, hP⟩)
          show alGet (alSet st.perResCache i _) rid = some e
          rw [alGet_alSet_ne _ _ _ _ hri]
          exact hge

theorem score_total_cold (s : State) (h : s.perResCache = []) :
    (score_total s).1 = ensure_cache_for_all s := by
  unfold score_total
  rw [h]

/-- C4: `build_state` yields a State with an empty per-residue cache; the
first `score_total` call fills it — every residue id gains an entry whose
`total` is the weighted sum (weights default 1.0 per term) of its `terms`
map — and sets `full_passes` to exactly 1. -/
theorem c4_cache_lifecycle :
    ∀ (seq : List Char) (coords : List Vec3),
      coords.length = 3 * seq.length →
      ∃ st : State, build_state seq coords = some st ∧
        st.perResCache = [] ∧
        (score_total st).1.stats.fullPasses = 1 ∧
        ∀ rid ∈ alKeys (score_total st).1.residues,
          ∃ e : PerResScore,
            alGet (score_total st).1.perResCache rid = some e ∧
              e.total = compose_weighted_total e.terms
                (score_total st).1.weights := by
  intro seq coords h
  obtain ⟨rs, _, hbs⟩ := build_state_some seq coords h
  have hcache : (from_residues rs SCORE_WEIGHTS).perResCache = [] :=
    frFold_cache rs _
  have hcold : (score_total (from_residues rs SCORE_WEIGHTS)).1 =
      ensure_cache_for_all (from_residues rs SCORE_WEIGHTS) :=
    score_total_cold _ hcache
  refine ⟨from_residues rs SCORE_WEIGHTS, hbs, hcache, ?_, ?_⟩
  · rw [hcold]
    unfold ensure_cache_for_all
    rw [ensureFold_fullPasses]
    show (from_residues rs SCORE_WEIGHTS).stats.fullPasses + 1 = 1
    unfold from_residues
    rw [frFold_stats]
    rfl
  · intro rid hrid
    rw [hcold] at hrid ⊢
    unfold ensure_cache_for_all at hrid ⊢
    rw [ensureFold_residues] at hrid
    rw [ensureFold_weights]
    exact ensureFold_cache _ _ rid (Or.inl hrid)

/-- Witness for C4 on the one-residue sequence `A`. -/
theorem c4_witness :
    (([((0 : ℚ), 0, 0), ((1 : ℚ), 0, 0), ((2 : ℚ), 0, 0)] :
        List Vec3).length = 3 * (['A'] : List Char).length) ∧
    (∃ st : State,
      build_state ['A']
          [((0 : ℚ), 0, 0), ((1 : ℚ), 0, 0), ((2 : ℚ), 0, 0)] = some st ∧
        st.perResCache = [] ∧
        (score_total st).1.stats.fullPasses = 1 ∧
        ∀ rid ∈ alKeys (score_total st).1.residues,
          ∃ e : PerResScore,
            alGet (score_total st).1.perResCache rid = some e ∧
              e.total = compose_weighted_total e.terms
                (score_total st).1.weights) :=
  ⟨rfl, c4_cache_lifecycle ['A']
    [((0 : ℚ), 0, 0), ((1 : ℚ), 0, 0), ((2 : ℚ), 0, 0)] rfl⟩

/-! ### C1: incremental vs full rescore on a concrete two-residue input

The failing input: sequence `"AA"` with residue 0 at x = 0..2 and residue 1
at x = 100..102 (far beyond the 8 Å interaction radius). One mutation is
applied via `update_residue_coords(0, {})` (a no-op move that leaves every
coordinate unchanged) followed by `local_rescore({0})`. The incremental
result only ever caches residue 0, so its total misses residue 1's
single-residue terms entirely, while `score_total` on a fresh State built
from the same (identical) coordinates caches both residues. -/

def c1Seq : List Char := ['A', 'A']

def c1Coords : List Vec3 :=
  [((0 : ℚ), 1, 2), ((1 : ℚ), 1, 2), ((2 : ℚ), 1, 2),
   ((100 : ℚ), 1, 2), ((101 : ℚ), 1, 2), ((102 : ℚ), 1, 2)]

def c1Res0 : Residue :=
  ⟨0, "ALA", [⟨(0, "N"), ((0 : ℚ), 1, 2)⟩, ⟨(0, "CA"), ((1 : ℚ), 1, 2)⟩,
    ⟨(0, "C"), ((2 : ℚ), 1, 2)⟩]⟩

def c1Res1 : Residue :=
  ⟨1, "ALA", [⟨(1, "N"), ((100 : ℚ), 1, 2)⟩, ⟨(1, "CA"), ((101 : ℚ), 1, 2)⟩,
    ⟨(1, "C"), ((102 : ℚ), 1, 2)⟩]⟩

def c1Grid : NeighborGrid :=
  ⟨4, [(((0 : ℤ), (0 : ℤ), (0 : ℤ)), [0]), (((25 : ℤ), (0 : ℤ), (0 : ℤ)), [1])],
    [(0, [((0 : ℤ), (0 : ℤ), (0 : ℤ))]), (1, [((25 : ℤ), (0 : ℤ), (0 : ℤ))])]⟩

def c1AtomIndex : List ((ℕ × String) × Vec3) :=
  [((0, "N"), ((0 : ℚ), 1, 2)), ((0, "CA"), ((1 : ℚ), 1, 2)),
   ((0, "C"), ((2 : ℚ), 1, 2)), ((1, "N"), ((100 : ℚ), 1, 2)),
   ((1, "CA"), ((101 : ℚ), 1, 2)), ((1, "C"), ((102 : ℚ), 1, 2))]

/-- The State `build_state("AA", c1Coords)` produces. -/
def c1St : State :=
  ⟨[(0, c1Res0), (1, c1Res1)], c1AtomIndex, c1Grid, [], SCORE_WEIGHTS,
    initialStats⟩

theorem c1_buildResidues :
    buildResidues c1Seq c1Coords 0 = some [c1Res0, c1Res1] := by rfl

theorem c1_key0 : toKey (4 : ℚ) ((0 : ℚ), 1, 2) = ((0 : ℤ), (0 : ℤ), (0 : ℤ)) := by
  unfold toKey
  norm_num

theorem c1_key1 : toKey (4 : ℚ) ((1 : ℚ), 1, 2) = ((0 : ℤ), (0 : ℤ), (0 : ℤ)) := by
  unfold toKey
  norm_num

theorem c1_key2 : toKey (4 : ℚ) ((2 : ℚ), 1, 2) = ((0 : ℤ), (0 : ℤ), (0 : ℤ)) := by
  unfold toKey
  norm_num

theorem c1_key100 : toKey (4 : ℚ) ((100 : ℚ), 1, 2) = ((25 : ℤ), (0 : ℤ), (0 : ℤ)) := by
  unfold toKey
  norm_num

theorem c1_key101 : toKey (4 : ℚ) ((101 : ℚ), 1, 2) = ((25 : ℤ), (0 : ℤ), (0 : ℤ)) := by
  unfold toKey
  norm_num

theorem c1_key102 : toKey (4 : ℚ) ((102 : ℚ), 1, 2) = ((25 : ℤ), (0 : ℤ), (0 : ℤ)) := by
  unfold toKey
  norm_num

theorem c1_build_state : build_state c1Seq c1Coords = some c1St := by
  unfold build_state
  rw [c1_buildResidues]
  show some (initialise_weights
    (from_residues [c1Res0, c1Res1] SCORE_WEIGHTS)) = some c1St
  have hfr : from_residues [c1Res0, c1Res1] SCORE_WEIGHTS = c1St := by
    simp +decide [from_residues, frStep, indexResidue, indexAtom,
      alSetDefault, alGetD, alGet, alSet, sAdd, c1Res0, c1Res1, c1St,
      c1Grid, c1AtomIndex, c1_key0, c1_key1, c1_key2, c1_key100, c1_key101,
      c1_key102]
  rw [hfr]
  rw [initialise_weights_ne c1St (by simp [c1St, SCORE_WEIGHTS])]

/-- The grid after `update_residue_coords(0, {})`: residue 0 cleared and
re-indexed, so its entries now sit at the back of both dicts. -/
def c1Grid1 : NeighborGrid :=
  ⟨4, [(((25 : ℤ), (0 : ℤ), (0 : ℤ)), [1]), (((0 : ℤ), (0 : ℤ), (0 : ℤ)), [0])],
    [(1, [((25 : ℤ), (0 : ℤ), (0 : ℤ))]), (0, [((0 : ℤ), (0 : ℤ), (0 : ℤ))])]⟩

/-- The State after the no-op mutation of residue 0. -/
def c1St1 : State :=
  ⟨[(0, c1Res0), (1, c1Res1)], c1AtomIndex, c1Grid1, [], SCORE_WEIGHTS,
    initialStats⟩

theorem c1_update : update_residue_coords c1St 0 [] = some c1St1 := by
  simp +decide [update_residue_coords, updStep, clearResidue, clearCell,
    indexResidue, indexAtom, alSetDefault, alGetD, alGet, alSet, alPop,
    sAdd, c1St, c1St1, c1Res0, c1Res1, c1Grid, c1Grid1, c1AtomIndex,
    c1_key0, c1_key1, c1_key2]

theorem c1_near_moved :
    nearbyResidues c1Grid1
      [((0 : ℚ), 1, 2), ((1 : ℚ), 1, 2), ((2 : ℚ), 1, 2)] 8 = [0] := by
  simp only [nearbyResidues, pointStep, c1Grid1, c1_key0, c1_key1, c1_key2,
    List.foldl_cons, List.foldl_nil,
    show (⌈(8 : ℚ) / 4⌉ : ℤ) = 2 by norm_num]
  decide

theorem c1_near_centre0 :
    nearbyResidues c1Grid1 [((0 : ℚ), 1, 2)] 8 = [0] := by
  simp only [nearbyResidues, pointStep, c1Grid1, c1_key0,
    List.foldl_cons, List.foldl_nil,
    show (⌈(8 : ℚ) / 4⌉ : ℤ) = 2 by norm_num]
  decide

theorem c1_near_fresh0 :
    nearbyResidues c1Grid [((0 : ℚ), 1, 2)] 8 = [0] := by
  simp only [nearbyResidues, pointStep, c1Grid, c1_key0,
    List.foldl_cons, List.foldl_nil,
    show (⌈(8 : ℚ) / 4⌉ : ℤ) = 2 by norm_num]
  decide

theorem c1_near_fresh1 :
    nearbyResidues c1Grid [((100 : ℚ), 1, 2)] 8 = [1] := by
  simp only [nearbyResidues, pointStep, c1Grid, c1_key100,
    List.foldl_cons, List.foldl_nil,
    show (⌈(8 : ℚ) / 4⌉ : ℤ) = 2 by norm_num]
  decide

/-- The total score the last `local_rescore` returns on the failing input
(0 when the pipeline fails, which `c1_incremental_rescore_code_bug` rules
out). -/
noncomputable def c1LocalScore : ℝ :=
  ((build_state c1Seq c1Coords).bind fun st =>
    update_residue_coords st 0 []).elim 0 fun st1 =>
      ((local_rescore st1 [0]).2).score

/-- The total score `score_total` returns on a fresh State built from the
same final coordinates. -/
noncomputable def c1FreshScore : ℝ :=
  (build_state c1Seq c1Coords).elim 0 fun st => ((score_total st).2).score

theorem c1_local_value : c1LocalScore = ((-7 : ℚ) / 50 : ℝ) := by
  unfold c1LocalScore
  rw [c1_build_state]
  show (update_residue_coords c1St 0 []).elim 0
    (fun st1 => ((local_rescore st1 [0]).2).score) = _
  rw [c1_update]
  show ((local_rescore c1St1 [0]).2).score = _
  simp +decide [local_rescore, rescoreStep, score_total, aggregateScore,
    compute_per_residue_terms, singleFoldStep, pairFoldStep, pairInnerStep,
    single_term_stub, singleTermValue, compose_weighted_total, getResidue,
    firstAtomXyz, alGetD, alGet, alSet, sAdd, sUnion, c1St1, c1Res0,
    c1Res1, c1AtomIndex, SCORE_WEIGHTS, initialStats, ScoreStats.bump,
    SINGLE_TERMS, PAIR_TERMS, ALL_TERMS, c1_near_moved, c1_near_centre0,
    List.foldl_cons, List.foldl_nil]
  norm_num

theorem c1_fresh_value : c1FreshScore = ((-47 : ℚ) / 200 : ℝ) := by
  unfold c1FreshScore
  rw [c1_build_state]
  show ((score_total c1St).2).score = _
  simp +decide [score_total, ensure_cache_for_all, ensureStep, alKeys,
    compute_per_residue_terms, singleFoldStep, pairFoldStep, pairInnerStep,
    single_term_stub, singleTermValue, compose_weighted_total,
    aggregateScore, getResidue, firstAtomXyz, alGetD, alGet, alSet, sAdd,
    c1St, c1Res0, c1Res1, c1AtomIndex, SCORE_WEIGHTS, initialStats,
    ScoreStats.bump, SINGLE_TERMS, PAIR_TERMS, ALL_TERMS, c1_near_fresh0,
    c1_near_fresh1, List.foldl_cons, List.foldl_nil]
  norm_num

/-- C1 (code bug): on the concrete failing input — `build_state("AA",
c1Coords)` with residue 1 far outside the 8 Å interaction radius of residue
0, one no-op mutation `update_residue_coords(0, {})`, then
`local_rescore({0})` — the incremental total (−0.14) differs from
`score_total` on a fresh State built from the same final coordinates
(−0.235) by 0.095, far beyond the 1e-6 tolerance the specification demands:
`local_rescore` never caches residues outside the invalidation set, and more
generally never re-invalidates residues that were only near the mutated
residue's old position. -/
theorem c1_incremental_rescore_code_bug :
    (build_state c1Seq c1Coords).isSome = true ∧
    ((build_state c1Seq c1Coords).bind fun st =>
      update_residue_coords st 0 []).isSome = true ∧
    ((1 : ℝ) / 1000000) < |c1LocalScore - c1FreshScore| := by
  refine ⟨?_, ?_, ?_⟩
  · rw [c1_build_state]
    rfl
  · rw [c1_build_state]
    show (update_residue_coords c1St 0 []).isSome = true
    rw [c1_update]
    rfl
  · rw [c1_local_value, c1_fresh_value]
    rw [show ((-7 : ℚ) / 50 : ℝ) - ((-47 : ℚ) / 200 : ℝ) = (19 / 200 : ℝ) by
      push_cast
      ring]
    rw [abs_of_pos (by norm_num)]
    norm_num

end BostonHacks
